import Mathlib

/-!
Formal verification of the hair-curve-tool simulation core.

Shallow embedding of the C++ sources (src/Bvh.cpp, src/Physics.cpp,
src/HairGuides.cpp, src/Scene.cpp) over exact rational arithmetic:
`float` is modelled as `ℚ`.  Consequences of this modelling choice:

* `NaN`/`Inf` do not exist in `ℚ`; the source's `isnan`/`isinf` guards are
  modelled as boolean parameters where a claim mentions them, and are
  otherwise dead branches.
* `sqrt` is not rational, so every function that calls `glm::length` /
  `glm::normalize` is parametrised by a square-root oracle `sq : ℚ → ℚ`;
  theorems that depend on the value of a length take the hypothesis that
  `sq` is correct at the (finitely many) arguments that actually occur.
* division by zero yields 0 (the `ℚ` convention) where IEEE would give
  `±inf`; each place where this matters is noted next to the definition.
-/

set_option maxHeartbeats 1000000

namespace HairTool

/-- `glm::vec3`, with exact rational components. -/
structure Vec3 where
  x : ℚ
  y : ℚ
  z : ℚ
deriving DecidableEq, Repr

namespace Vec3

instance : Add Vec3 := ⟨fun a b => ⟨a.x + b.x, a.y + b.y, a.z + b.z⟩⟩

instance : Sub Vec3 := ⟨fun a b => ⟨a.x - b.x, a.y - b.y, a.z - b.z⟩⟩

instance : Neg Vec3 := ⟨fun a => ⟨-a.x, -a.y, -a.z⟩⟩

instance : SMul ℚ Vec3 := ⟨fun k a => ⟨k * a.x, k * a.y, k * a.z⟩⟩

instance : Zero Vec3 := ⟨⟨0, 0, 0⟩⟩

@[simp] theorem add_def (a b : Vec3) : a + b = ⟨a.x + b.x, a.y + b.y, a.z + b.z⟩ := rfl
@[simp] theorem sub_def (a b : Vec3) : a - b = ⟨a.x - b.x, a.y - b.y, a.z - b.z⟩ := rfl
@[simp] theorem neg_def (a : Vec3) : -a = ⟨-a.x, -a.y, -a.z⟩ := rfl
@[simp] theorem smul_def (k : ℚ) (a : Vec3) : k • a = ⟨k * a.x, k * a.y, k * a.z⟩ := rfl
@[simp] theorem zero_def : (0 : Vec3) = ⟨0, 0, 0⟩ := rfl

/-- `glm::dot`. -/
def dot (a b : Vec3) : ℚ := a.x * b.x + a.y * b.y + a.z * b.z

/-- `glm::cross`. -/
def cross (a b : Vec3) : Vec3 :=
  ⟨a.y * b.z - a.z * b.y, a.z * b.x - a.x * b.z, a.x * b.y - a.y * b.x⟩

/-- Componentwise `glm::min`. -/
def cmin (a b : Vec3) : Vec3 := ⟨min a.x b.x, min a.y b.y, min a.z b.z⟩

/-- Componentwise `glm::max`. -/
def cmax (a b : Vec3) : Vec3 := ⟨max a.x b.x, max a.y b.y, max a.z b.z⟩

/-- Squared euclidean distance (the square of `glm::length (a - b)`). -/
def distSq (a b : Vec3) : ℚ := dot (a - b) (a - b)

end Vec3

open Vec3

/-- `closestPointOnTriangle` from src/Bvh.cpp (Ericson's 7-region
closest-point-on-triangle).  Exact translation; divisions are rational,
with the `ℚ` convention `q / 0 = 0` replacing IEEE overflow in the
(degenerate-triangle) cases where a denominator vanishes. -/
def closestPointOnTriangle (p a b c : Vec3) : Vec3 :=
  let ab := b - a
  let ac := c - a
  let ap := p - a
  let d1 := dot ab ap
  let d2 := dot ac ap
  if d1 ≤ 0 ∧ d2 ≤ 0 then a
  else
    let bp := p - b
    let d3 := dot ab bp
    let d4 := dot ac bp
    if d3 ≥ 0 ∧ d4 ≤ d3 then b
    else
      let vc := d1 * d4 - d3 * d2
      if vc ≤ 0 ∧ d1 ≥ 0 ∧ d3 ≤ 0 then
        let v := d1 / (d1 - d3)
        a + v • ab
      else
        let cp := p - c
        let d5 := dot ab cp
        let d6 := dot ac cp
        if d6 ≥ 0 ∧ d5 ≤ d6 then c
        else
          let vb := d5 * d2 - d1 * d6
          if vb ≤ 0 ∧ d2 ≥ 0 ∧ d6 ≤ 0 then
            let w := d2 / (d2 - d6)
            a + w • ac
          else
            let va := d3 * d6 - d5 * d4
            if va ≤ 0 ∧ d4 - d3 ≥ 0 ∧ d5 - d6 ≥ 0 then
              let w := (d4 - d3) / ((d4 - d3) + (d5 - d6))
              b + w • (c - b)
            else
              let denom := 1 / (va + vb + vc)
              let v := vb * denom
              let w := vc * denom
              a + v • ab + w • ac

/-! ## Mesh and BVH (src/Mesh.h, src/Bvh.h, src/Bvh.cpp) -/

/-- The read-only part of `Mesh` that the simulation core consumes:
vertex positions and the flat triangle index list. -/
structure Mesh where
  positions : List Vec3
  indices : List ℕ
deriving DecidableEq, Repr

namespace Mesh

/-- `positions()[i]` (out-of-range reads yield the origin; the source never
performs them on the paths we verify). -/
def pos (m : Mesh) (i : ℕ) : Vec3 := m.positions.getD i 0

/-- `indices()[i]`. -/
def idx (m : Mesh) (i : ℕ) : ℕ := m.indices.getD i 0

/-- `indices().size() / 3`. -/
def triCount (m : Mesh) : ℕ := m.indices.length / 3

/-- The three vertices of triangle `t` (`pos[ind[t*3+0]]`, …). -/
def vertA (m : Mesh) (t : ℕ) : Vec3 := m.pos (m.idx (t * 3))

def vertB (m : Mesh) (t : ℕ) : Vec3 := m.pos (m.idx (t * 3 + 1))

def vertC (m : Mesh) (t : ℕ) : Vec3 := m.pos (m.idx (t * 3 + 2))

end Mesh

/-- `triBounds` from src/Bvh.cpp: componentwise min of the triangle's
vertices. -/
def triMin (m : Mesh) (t : ℕ) : Vec3 :=
  cmin (m.vertA t) (cmin (m.vertB t) (m.vertC t))

/-- `triBounds`: componentwise max of the triangle's vertices. -/
def triMax (m : Mesh) (t : ℕ) : Vec3 :=
  cmax (m.vertA t) (cmax (m.vertB t) (m.vertC t))

/-- `Bvh::Node` (src/Bvh.h). `firstTri`/`triCount` are `int` in the source
but always hold nonnegative values, so we use `ℕ`; the child links keep
the `-1` sentinel. -/
structure Node where
  bmin : Vec3 := 0
  bmax : Vec3 := 0
  left : Int := -1
  right : Int := -1
  firstTri : ℕ := 0
  triCount : ℕ := 0
deriving DecidableEq, Repr

instance : Inhabited Node := ⟨{}⟩

/-- Component access `v[axis]` for glm vectors. -/
def Vec3.comp (v : Vec3) : ℕ → ℚ
  | 0 => v.x
  | 1 => v.y
  | _ => v.z

/-- The centroid key used by `buildNode`'s `nth_element` comparator:
`0.5f * (tmin + tmax)` along the split axis. -/
def triCenter (m : Mesh) (t : ℕ) : Vec3 :=
  ((1 : ℚ) / 2) • (triMin m t + triMax m t)

/-- Fold of `triBounds` over `m_triIndices[first .. first+count)`, as in
`Bvh::buildNode`.  The source starts the fold at `±infinity`; since the
function is only invoked with `count ≥ 1` we start at the first
triangle's bounds instead (the empty case returns a degenerate box and
is unreachable from `build`). -/
def rangeBounds (m : Mesh) (tris : List ℕ) (first count : ℕ) :
    Vec3 × Vec3 :=
  match (tris.drop first).take count with
  | [] => (0, 0)
  | t :: rest =>
      rest.foldl (fun acc t' => (cmin acc.1 (triMin m t'), cmax acc.2 (triMax m t')))
        (triMin m t, triMax m t)

/-- The node pushed by `Bvh::buildNode` before any splitting: box plus
`firstTri`/`triCount`, children still `-1`. -/
def leafNode (bb : Vec3 × Vec3) (first count : ℕ) : Node :=
  { bmin := bb.1, bmax := bb.2, firstTri := first, triCount := count }

/-- The patch applied to an interior node after both children are built
(`left`/`right` set, `triCount` zeroed). -/
def innerNode (bb : Vec3 × Vec3) (first leftIdx rightIdx : ℕ) : Node :=
  { bmin := bb.1, bmax := bb.2, left := Int.ofNat leftIdx,
    right := Int.ofNat rightIdx, firstTri := first, triCount := 0 }

/-- The subrange reordering performed by `Bvh::buildNode`: pick the
longest-extent axis of the node box, and reorder
`m_triIndices[first .. first+count)` by the triangle-centroid key along
that axis.  The in-place `std::nth_element` is modelled as fully
sorting the subrange (a legal `nth_element` outcome: the median lands
at `mid` and the subrange is partitioned around it). -/
def splitSorted (m : Mesh) (bb : Vec3 × Vec3) (tris : List ℕ)
    (first count : ℕ) : List ℕ :=
  let extent := bb.2 - bb.1
  let axis1 : ℕ := if extent.x < extent.y then 1 else 0
  let axis : ℕ := if extent.comp axis1 < extent.z then 2 else axis1
  let key : ℕ → ℚ := fun t => (triCenter m t).comp axis
  ((tris.drop first).take count).mergeSort (fun t1 t2 => key t1 ≤ key t2)

/-- `Bvh::buildNode` (src/Bvh.cpp): append this node (leaf if
`count ≤ 8`), else partition the subrange, build both children
(`mid = first + count/2`), and patch this node's child links. -/
def buildNode (m : Mesh) (tris : List ℕ) (first count : ℕ)
    (nodes : List Node) : List Node × List ℕ :=
  let bb := rangeBounds m tris first count
  if count ≤ 8 then
    (nodes ++ [leafNode bb first count], tris)
  else
    let tris1 := tris.take first ++ splitSorted m bb tris first count ++
      tris.drop (first + count)
    let nodes1 := nodes ++ [leafNode bb first count]
    let r2 := buildNode m tris1 first (count / 2) nodes1
    let r3 := buildNode m r2.2 (first + count / 2) (count - count / 2) r2.1
    (r3.1.set nodes.length (innerNode bb first nodes1.length r2.1.length), r3.2)
termination_by count
decreasing_by
  · omega
  · omega

/-- The BVH: node pool plus the permuted triangle-index array. -/
structure Bvh where
  nodes : List Node
  triIndices : List ℕ
deriving Repr

/-- `Bvh::build`. -/
def Bvh.build (m : Mesh) : Bvh :=
  let triCount := m.indices.length / 3
  let r := buildNode m (List.range triCount) 0 triCount []
  ⟨r.1, r.2⟩

/-- `Bvh::aabbDistSq`: squared distance from a point to an AABB. -/
def aabbDistSq (p bmin bmax : Vec3) : ℚ :=
  let dx := if p.x < bmin.x then bmin.x - p.x else if bmax.x < p.x then p.x - bmax.x else 0
  let dy := if p.y < bmin.y then bmin.y - p.y else if bmax.y < p.y then p.y - bmax.y else 0
  let dz := if p.z < bmin.z then bmin.z - p.z else if bmax.z < p.z then p.z - bmax.z else 0
  dx * dx + dy * dy + dz * dz

/-- `glm::normalize`, via the square-root oracle (`v / length(v)`). -/
def normalize (sq : ℚ → ℚ) (v : Vec3) : Vec3 := (1 / sq (dot v v)) • v

/-- The closest point of `p` on triangle `t` of `m` (as the code computes it). -/
def triClosest (m : Mesh) (p : Vec3) (t : ℕ) : Vec3 :=
  closestPointOnTriangle p (m.vertA t) (m.vertB t) (m.vertC t)

/-- Squared distance from `p` to its closest point on triangle `t`. -/
def triDistSq (m : Mesh) (p : Vec3) (t : ℕ) : ℚ := distSq p (triClosest m p t)

/-- Running best of `Bvh::nearestTriangle`:
`(bestDistSq, bestTri, bestP, bestN)`. -/
structure NearRes where
  dSq : ℚ
  tri : Int
  cp : Vec3
  nrm : Vec3
deriving DecidableEq, Repr

/-- Body of the leaf loop in `Bvh::nearestTriangle`: test one candidate
triangle against the running best (strict improvement). -/
def scanTri (sq : ℚ → ℚ) (m : Mesh) (p : Vec3) (best : NearRes) (t : ℕ) : NearRes :=
  let a := m.vertA t
  let b := m.vertB t
  let c := m.vertC t
  let cp := closestPointOnTriangle p a b c
  let d := p - cp
  let dd := dot d d
  if dd < best.dSq then ⟨dd, Int.ofNat t, cp, normalize sq (cross (b - a) (c - a))⟩
  else best

/-- Scan a list of candidate triangles in order. -/
def scanRange (sq : ℚ → ℚ) (m : Mesh) (p : Vec3) (ts : List ℕ) (best : NearRes) : NearRes :=
  ts.foldl (scanTri sq m p) best

/-- The explicit-stack loop of `Bvh::nearestTriangle`.  The head of the
list is the top of the stack (`push_back`/`pop_back`); `fuel` bounds the
iteration count (the C++ loop terminates because the node array is a
well-formed tree; we prove the fuel is never exhausted for trees
produced by `build`). -/
def nearestGo (sq : ℚ → ℚ) (m : Mesh) (bvh : Bvh) (p : Vec3) :
    ℕ → List ℕ → NearRes → NearRes
  | 0, _, best => best
  | _ + 1, [], best => best
  | fuel + 1, ni :: stack, best =>
      let n := bvh.nodes.getD ni default
      let d2 := aabbDistSq p n.bmin n.bmax
      if best.dSq < d2 then nearestGo sq m bvh p fuel stack best
      else if 0 < n.triCount then
        nearestGo sq m bvh p fuel stack
          (scanRange sq m p ((bvh.triIndices.drop n.firstTri).take n.triCount) best)
      else
        let s1 := if 0 ≤ n.left then n.left.toNat :: stack else stack
        let s2 := if 0 ≤ n.right then n.right.toNat :: s1 else s1
        nearestGo sq m bvh p fuel s2 best

/-- `Bvh::nearestTriangle`.  Returns `none` for `false`; otherwise
`(triangleIndex, closestPoint, normal)`. -/
def Bvh.nearestTriangle (sq : ℚ → ℚ) (bvh : Bvh) (m : Mesh) (p : Vec3)
    (maxDist : ℚ) : Option (ℕ × Vec3 × Vec3) :=
  if bvh.nodes = [] then none
  else if m.positions = [] ∨ m.indices = [] then none
  else
    let best0 : NearRes := ⟨maxDist * maxDist, -1, 0, ⟨0, 1, 0⟩⟩
    let r := nearestGo sq m bvh p (bvh.nodes.length + 1) [0] best0
    if r.tri < 0 then none else some (r.tri.toNat, r.cp, r.nrm)

/-- IEEE value classes arising in `Bvh::rayAabb` when a ray-direction
component is zero: a finite value (exact in `ℚ`), `±inf`, or `NaN`.
Infinities and `NaN` enter only through `1.0f / 0.0f = +inf` in
`Bvh::raycast` and through the slab products `finite * ±inf`
(`0 * ±inf = NaN`); no finite `float` overflow occurs on the inputs
the solver passes. -/
inductive XQ where
  | fin (q : ℚ)
  | pinf
  | ninf
  | nan
deriving DecidableEq, Repr

/-- `1.0f / x` as `Bvh::raycast` computes the components of `rdInv`:
IEEE division of `1.0f` by (positive) zero yields `+inf` (the zero
direction components the solver passes are the literals `0.0f`). -/
def xinv (x : ℚ) : XQ := if x = 0 then XQ.pinf else XQ.fin (1 / x)

/-- IEEE product of a finite value with a possibly-infinite one — the
slab products `(bound - origin) * rdInv` of `Bvh::rayAabb`; note
`0 * ±inf = NaN`. -/
def xmul (a : ℚ) (b : XQ) : XQ :=
  match b with
  | XQ.fin q => XQ.fin (a * q)
  | XQ.pinf => if a = 0 then XQ.nan else if 0 < a then XQ.pinf else XQ.ninf
  | XQ.ninf => if a = 0 then XQ.nan else if 0 < a then XQ.ninf else XQ.pinf
  | XQ.nan => XQ.nan

/-- IEEE `<`: any comparison involving `NaN` is false. -/
def xlt (a b : XQ) : Bool :=
  match a, b with
  | XQ.nan, _ => false
  | _, XQ.nan => false
  | XQ.fin x, XQ.fin y => decide (x < y)
  | XQ.fin _, XQ.pinf => true
  | XQ.fin _, XQ.ninf => false
  | XQ.pinf, _ => false
  | XQ.ninf, XQ.fin _ => true
  | XQ.ninf, XQ.pinf => true
  | XQ.ninf, XQ.ninf => false

/-- IEEE `<=`: false when either side is `NaN`. -/
def xle (a b : XQ) : Bool :=
  match a, b with
  | XQ.nan, _ => false
  | _, XQ.nan => false
  | XQ.fin x, XQ.fin y => decide (x ≤ y)
  | XQ.fin _, XQ.pinf => true
  | XQ.fin _, XQ.ninf => false
  | XQ.pinf, XQ.fin _ => false
  | XQ.pinf, XQ.pinf => true
  | XQ.pinf, XQ.ninf => false
  | XQ.ninf, _ => true

/-- Scalar `glm::min`: `(y < x) ? y : x` — returns the *first* operand
when the comparison involves `NaN`. -/
def xmin (x y : XQ) : XQ := if xlt y x then y else x

/-- Scalar `glm::max`: `(x < y) ? y : x` — returns the *first* operand
when the comparison involves `NaN`. -/
def xmax (x y : XQ) : XQ := if xlt x y then y else x

/-- `Bvh::rayAabb` (slab test), with the `rdInv` components carried as
IEEE value classes: a zero direction component makes its slab impose
no constraint when the origin is strictly inside it (`±inf` bounds)
and fail when the origin is strictly outside it, exactly as the
`float` code behaves. -/
def rayAabb (ro : Vec3) (rdInv : XQ × XQ × XQ) (bmin bmax : Vec3) : Bool :=
  let tx1 := xmul (bmin.x - ro.x) rdInv.1
  let tx2 := xmul (bmax.x - ro.x) rdInv.1
  let tmin0 := xmin tx1 tx2
  let tmax0 := xmax tx1 tx2
  let ty1 := xmul (bmin.y - ro.y) rdInv.2.1
  let ty2 := xmul (bmax.y - ro.y) rdInv.2.1
  let tmin1 := xmax tmin0 (xmin ty1 ty2)
  let tmax1 := xmin tmax0 (xmax ty1 ty2)
  let tz1 := xmul (bmin.z - ro.z) rdInv.2.2
  let tz2 := xmul (bmax.z - ro.z) rdInv.2.2
  let tmin2 := xmax tmin1 (xmin tz1 tz2)
  let tmax2 := xmin tmax1 (xmax tz1 tz2)
  xle tmin2 tmax2 && xle (XQ.fin 0) tmax2

/-- The explicit-stack loop of `Bvh::raycast`; collects the triangle
indices passed to the callback, in callback order. -/
def raycastGo (bvh : Bvh) (ro : Vec3) (rdInv : XQ × XQ × XQ) :
    ℕ → List ℕ → List ℕ → List ℕ
  | 0, _, acc => acc
  | _ + 1, [], acc => acc
  | fuel + 1, ni :: stack, acc =>
      let n := bvh.nodes.getD ni default
      if rayAabb ro rdInv n.bmin n.bmax then
        if 0 < n.triCount then
          raycastGo bvh ro rdInv fuel stack
            (acc ++ (bvh.triIndices.drop n.firstTri).take n.triCount)
        else
          let s1 := if 0 ≤ n.left then n.left.toNat :: stack else stack
          let s2 := if 0 ≤ n.right then n.right.toNat :: s1 else s1
          raycastGo bvh ro rdInv fuel s2 acc
      else raycastGo bvh ro rdInv fuel stack acc

/-- `Bvh::raycast`: the candidate triangles delivered to the callback
(`rdInv = (1/rd.x, 1/rd.y, 1/rd.z)` in IEEE arithmetic). -/
def Bvh.raycast (bvh : Bvh) (ro rd : Vec3) : List ℕ :=
  if bvh.nodes = [] then []
  else raycastGo bvh ro (xinv rd.x, xinv rd.y, xinv rd.z)
    (bvh.nodes.length + 1) [0] []

/-! ## Physics helpers (src/Physics.cpp) -/

/-- `rayTriMT`: Möller–Trumbore ray/triangle intersection.
Returns the hit parameter `t` or `none`. -/
def rayTriMT (ro rd a b c : Vec3) : Option ℚ :=
  let e1 := b - a
  let e2 := c - a
  let pv := cross rd e2
  let det := dot e1 pv
  if |det| < 1 / 100000000 then none
  else
    let invDet := 1 / det
    let s := ro - a
    let u := dot s pv * invDet
    if u < 0 ∨ 1 < u then none
    else
      let qv := cross s e1
      let v := dot rd qv * invDet
      if v < 0 ∨ 1 < u + v then none
      else
        let t := dot e2 qv * invDet
        if t ≤ 1 / 1000000 then none
        else some t

/-- `isInsideMeshRayParity`: odd/even crossing count along a `+X` ray
from `p + (1e-5, 0, 0)`. -/
def isInsideMeshRayParity (m : Mesh) (bvh : Bvh) (p : Vec3) : Bool :=
  let ro := p + (⟨1 / 100000, 0, 0⟩ : Vec3)
  let rd : Vec3 := ⟨1, 0, 0⟩
  let cands := bvh.raycast ro rd
  let count := cands.countP
    (fun t => (rayTriMT ro rd (m.vertA t) (m.vertB t) (m.vertC t)).isSome)
  count % 2 == 1

/-! ## BVH well-formedness and query correctness -/

/-- Membership of a point in an AABB. -/
def inBox (q bmin bmax : Vec3) : Prop :=
  bmin.x ≤ q.x ∧ q.x ≤ bmax.x ∧ bmin.y ≤ q.y ∧ q.y ≤ bmax.y ∧
  bmin.z ≤ q.z ∧ q.z ≤ bmax.z

instance (q bmin bmax : Vec3) : Decidable (inBox q bmin bmax) := by
  unfold inBox; infer_instance

/-- All three vertices of triangle `t` lie in the box. -/
def triInBox (m : Mesh) (t : ℕ) (bmin bmax : Vec3) : Prop :=
  inBox (m.vertA t) bmin bmax ∧ inBox (m.vertB t) bmin bmax ∧
  inBox (m.vertC t) bmin bmax

/-- Well-formed subtree rooted at node `ni`, covering the slot range
`[first, first+count)` of the permuted triangle array, with `size`
nodes.  Each node's box bounds every triangle of its whole range, which
is what the distance pruning of `nearestTriangle` relies on. -/
inductive Subtree (m : Mesh) (nodes : List Node) (tris : List ℕ) :
    ℕ → ℕ → ℕ → ℕ → Prop
  | leaf (ni first count : ℕ) (node : Node)
      (hget : nodes.get? ni = some node)
      (hleaf : 0 < node.triCount)
      (hfirst : node.firstTri = first) (hcount : node.triCount = count)
      (hbox : ∀ t ∈ (tris.drop first).take count, triInBox m t node.bmin node.bmax)
      (hlen : first + count ≤ tris.length) :
      Subtree m nodes tris ni first count 1
  | node (ni first count c1 c2 s1 s2 : ℕ) (nl nr : ℕ) (node : Node)
      (hget : nodes.get? ni = some node)
      (hleaf : node.triCount = 0)
      (hbox : ∀ t ∈ (tris.drop first).take count, triInBox m t node.bmin node.bmax)
      (hlen : first + count ≤ tris.length)
      (hl : node.left = Int.ofNat nl) (hr : node.right = Int.ofNat nr)
      (hlgt : ni < nl) (hrgt : ni < nr)
      (hcnt : c1 + c2 = count)
      (hlsub : Subtree m nodes tris nl first c1 s1)
      (hrsub : Subtree m nodes tris nr (first + c1) c2 s2) :
      Subtree m nodes tris ni first count (s1 + s2 + 1)

/-! ## Correctness of `buildNode` -/

/-- Pointwise order on box corners. -/
def boxLe (a b : Vec3) : Prop := a.x ≤ b.x ∧ a.y ≤ b.y ∧ a.z ≤ b.z

/-- The fold inside `rangeBounds`. -/
def foldBounds (m : Mesh) (l : List ℕ) (acc : Vec3 × Vec3) : Vec3 × Vec3 :=
  l.foldl (fun acc t' => (cmin acc.1 (triMin m t'), cmax acc.2 (triMax m t'))) acc

/-- The O(n) brute-force nearest-triangle scan the spec tests against:
same initial best, same strict-improvement update, over all triangles
in index order.  (Definition follows the spec's "O(n) brute-force scan
over all triangles".) -/
def bruteForceNearest (sq : ℚ → ℚ) (m : Mesh) (p : Vec3) (maxDist : ℚ) :
    Option (ℕ × Vec3 × Vec3) :=
  let best0 : NearRes := ⟨maxDist * maxDist, -1, 0, ⟨0, 1, 0⟩⟩
  let r := scanRange sq m p (List.range m.triCount) best0
  if r.tri < 0 then none else some (r.tri.toNat, r.cp, r.nrm)

/-! ## Guide data model (src/HairGuides.h) -/

/-- `glm::clamp` for scalars. -/
def clampQ (x lo hi : ℚ) : ℚ := max lo (min x hi)

/-- Componentwise `glm::clamp(v, 0, 1)`. -/
def clamp01 (v : Vec3) : Vec3 := ⟨clampQ v.x 0 1, clampQ v.y 0 1, clampQ v.z 0 1⟩

/-- Componentwise vector-by-scalar division (`glm` `v / s`, `v /= s`). -/
def vdiv (v : Vec3) (k : ℚ) : Vec3 := ⟨v.x / k, v.y / k, v.z / k⟩

/-- `GuideSettings` (src/HairGuides.h), defaults as in the source. -/
structure GuideSettings where
  defaultLength : ℚ := 3 / 10
  defaultSteps : Int := 12
  mirrorMode : Bool := false
  enableSimulation : Bool := false
  enableMeshCollision : Bool := true
  enableCurveCollision : Bool := false
  enableGpuSolver : Bool := false
  collisionThickness : ℚ := 20 / 10000
  collisionFriction : ℚ := 1
  solverIterations : Int := 12
  gravity : ℚ := 0
  damping : ℚ := 9 / 10
  stiffness : ℚ := 1 / 10
  dragLerp : ℚ := 35 / 100
deriving DecidableEq, Repr

/-- `HairRootBinding`. -/
structure HairRootBinding where
  triIndex : Int := -1
  bary : Vec3 := 0
deriving DecidableEq, Repr

/-- `HairCurve`. -/
structure HairCurve where
  root : HairRootBinding := {}
  points : List Vec3 := []
  prevPoints : List Vec3 := []
  segmentRestLen : ℚ := 0
deriving DecidableEq, Repr

/-- `HairGuideSet` state: the curve array, the parallel selection array
(`unsigned char` 0/1 modelled as `Bool`), and the active-curve index. -/
structure HairGuideSet where
  curves : List HairCurve := []
  selected : List Bool := []
  activeCurve : Int := -1
deriving DecidableEq, Repr

namespace HairGuideSet

/-- `HairGuideSet::clear`. -/
def clear (_hg : HairGuideSet) : HairGuideSet := ⟨[], [], -1⟩

/-- `HairGuideSet::curveCount`. -/
def curveCount (hg : HairGuideSet) : ℕ := hg.curves.length

/-- `HairGuideSet::isCurveSelected`. -/
def isCurveSelected (hg : HairGuideSet) (curveIdx : ℕ) : Bool :=
  if hg.selected.length ≤ curveIdx then false
  else hg.selected.getD curveIdx false

/-- `HairGuideSet::deselectAll`. -/
def deselectAll (hg : HairGuideSet) : HairGuideSet :=
  { hg with selected := hg.selected.map (fun _ => false), activeCurve := -1 }

/-- `HairGuideSet::selectCurve`.  The source writes
`m_selected[curveIdx]` unchecked after validating against
`m_curves.size()` (in-bounds under the selection/curve length
invariant); `List.set` is a no-op out of bounds. -/
def selectCurve (hg : HairGuideSet) (curveIdx : Int) (additive : Bool) :
    HairGuideSet :=
  if curveIdx < 0 ∨ hg.curves.length ≤ curveIdx.toNat then hg
  else
    let hg1 := if ¬additive then deselectAll hg else hg
    { hg1 with
      selected := hg1.selected.set curveIdx.toNat true
      activeCurve := curveIdx }

/-- The scan for a new active curve used by `removeCurve` and
`toggleCurveSelected`: first selected index or `-1`. -/
def firstSelected (sel : List Bool) : Int :=
  match sel.findIdx? (fun s => s) with
  | some i => Int.ofNat i
  | none => -1

/-- `HairGuideSet::toggleCurveSelected`. -/
def toggleCurveSelected (hg : HairGuideSet) (curveIdx : Int) : HairGuideSet :=
  if curveIdx < 0 ∨ hg.curves.length ≤ curveIdx.toNat then hg
  else
    let s := hg.selected.getD curveIdx.toNat false
    let sel' := hg.selected.set curveIdx.toNat (¬s)
    if ¬s then { hg with selected := sel', activeCurve := curveIdx }
    else if hg.activeCurve = curveIdx then
      { hg with selected := sel', activeCurve := firstSelected sel' }
    else { hg with selected := sel' }

/-- `HairGuideSet::removeCurve`. -/
def removeCurve (hg : HairGuideSet) (curveIdx : Int) : HairGuideSet :=
  if curveIdx < 0 ∨ hg.curves.length ≤ curveIdx.toNat then hg
  else
    let curves' := hg.curves.eraseIdx curveIdx.toNat
    let sel' := if curveIdx.toNat < hg.selected.length then
        hg.selected.eraseIdx curveIdx.toNat else hg.selected
    let active' :=
      if hg.activeCurve = curveIdx then firstSelected sel'
      else if curveIdx < hg.activeCurve then hg.activeCurve - 1
      else hg.activeCurve
    ⟨curves', sel', active'⟩

/-- `HairGuideSet::removeCurves` (indices supplied in descending order
by the caller). -/
def removeCurves (hg : HairGuideSet) (idxs : List Int) : HairGuideSet :=
  idxs.foldl removeCurve hg

/-- `HairGuideSet::moveControlPoint`.  `worldPosFinite` models the
`isnan`/`isinf` guard on `worldPos` (no `NaN` exists in `ℚ`). -/
def moveControlPoint (hg : HairGuideSet) (curveIdx vertIdx : Int)
    (worldPos : Vec3) (worldPosFinite : Bool) : HairGuideSet :=
  if curveIdx < 0 ∨ hg.curves.length ≤ curveIdx.toNat then hg
  else
    let c := hg.curves.getD curveIdx.toNat {}
    if vertIdx ≤ 0 ∨ c.points.length ≤ vertIdx.toNat then hg
    else if ¬worldPosFinite then hg
    else
      let c' := { c with
        points := c.points.set vertIdx.toNat worldPos
        prevPoints := c.prevPoints.set vertIdx.toNat worldPos }
      { hg with curves := hg.curves.set curveIdx.toNat c' }

/-- The root-binding block of `HairGuideSet::addCurveOnMesh`
(src/HairGuides.cpp lines 23–46): validate the triangle index, clamp
and renormalize the barycentrics. -/
def rootBindingFor (m : Mesh) (triIndex : Int) (bary : Vec3) :
    HairRootBinding :=
  if 0 ≤ triIndex ∧ triIndex.toNat < m.indices.length / 3 then
    let b := clamp01 bary
    let s := b.x + b.y + b.z
    let b' := if s ≤ 1 / 100000000 then (⟨1, 0, 0⟩ : Vec3) else vdiv b s
    ⟨triIndex, b'⟩
  else ⟨-1, ⟨1, 0, 0⟩⟩

/-- `glm::clamp(settings.defaultSteps, 2, 256)`. -/
def newCurveSteps (settings : GuideSettings) : ℕ :=
  (max 2 (min settings.defaultSteps 256)).toNat

/-- The `HairCurve` built by `HairGuideSet::addCurveOnMesh` on the
successful path (src/HairGuides.cpp lines 19–99). -/
def newCurve (sq : ℚ → ℚ) (m : Mesh) (triIndex : Int)
    (bary hitPos hitNormal : Vec3) (settings : GuideSettings) : HairCurve :=
  let root := rootBindingFor m triIndex bary
  let steps := newCurveSteps settings
  let normalLen := sq (dot hitNormal hitNormal)
  let dir := if normalLen < 1 / 1000000 then (⟨0, 1, 0⟩ : Vec3)
    else vdiv hitNormal normalLen
  let len := max (1 / 1000) settings.defaultLength
  let segRest := len / ((steps : ℚ) - 1)
  let meshRootPos :=
    if 0 ≤ triIndex ∧ triIndex.toNat < m.indices.length / 3 then
      let i0 := m.idx (triIndex.toNat * 3)
      let i1 := m.idx (triIndex.toNat * 3 + 1)
      let i2 := m.idx (triIndex.toNat * 3 + 2)
      if i0 < m.positions.length ∧ i1 < m.positions.length ∧
          i2 < m.positions.length then
        root.bary.x • m.pos i0 + root.bary.y • m.pos i1 +
          root.bary.z • m.pos i2
      else hitPos
    else hitPos
  let pts := (List.range steps).map
    (fun (i : ℕ) => meshRootPos + ((len * ((i : ℚ) / ((steps : ℚ) - 1)))) • dir)
  ⟨root, pts, pts, segRest⟩

/-- `HairGuideSet::addCurveOnMesh`.  Returns the updated set plus the
returned index.  `hitValid` models the `isnan`/`isinf` validation of
`hitPos`/`hitNormal` (no `NaN` in `ℚ`; the other `isnan` checks in the
source are dead in exact arithmetic). -/
def addCurveOnMesh (hg : HairGuideSet) (sq : ℚ → ℚ) (m : Mesh)
    (triIndex : Int) (bary hitPos hitNormal : Vec3)
    (settings : GuideSettings) (hitValid : Bool) : HairGuideSet × Int :=
  if ¬hitValid then (hg, -1)
  else
    ({ hg with
        curves := hg.curves ++ [newCurve sq m triIndex bary hitPos hitNormal settings]
        selected := hg.selected ++ [false] },
      Int.ofNat hg.curves.length)

/-- Per-curve body of `HairGuideSet::updatePinnedRootsFromMesh`
(src/HairGuides.cpp); the `isnan`/`isinf` guards are dead in `ℚ`. -/
def updateRoot (m : Mesh) (c : HairCurve) : HairCurve :=
  if c.root.triIndex < 0 then c
  else
    let triCount := m.indices.length / 3
    if triCount ≤ c.root.triIndex.toNat then
      { c with root := { c.root with triIndex := -1 } }
    else
      let i0 := m.idx (c.root.triIndex.toNat * 3)
      let i1 := m.idx (c.root.triIndex.toNat * 3 + 1)
      let i2 := m.idx (c.root.triIndex.toNat * 3 + 2)
      if m.positions.length ≤ i0 ∨ m.positions.length ≤ i1 ∨
          m.positions.length ≤ i2 then
        { c with root := { c.root with triIndex := -1 } }
      else
        let b := c.root.bary
        let s := b.x + b.y + b.z
        let b' := if s ≤ 1 / 100000000 then (⟨1, 0, 0⟩ : Vec3) else vdiv b s
        let p := b'.x • m.pos i0 + b'.y • m.pos i1 + b'.z • m.pos i2
        if c.points = [] then c
        else { c with
          points := c.points.set 0 p
          prevPoints := c.prevPoints.set 0 p }

/-- `HairGuideSet::updatePinnedRootsFromMesh`: early-out on an empty
mesh, else update every curve. -/
def updatePinnedRootsFromMesh (hg : HairGuideSet) (m : Mesh) : HairGuideSet :=
  if m.positions = [] ∨ m.indices = [] then hg
  else { hg with curves := hg.curves.map (updateRoot m) }

end HairGuideSet

/-! ## Solver pieces (src/Physics.cpp) -/

/-- `solveDistance`: PBD distance constraint between two points,
returning the corrected pair.  `sq` supplies `glm::length d`. -/
def solveDistance (sq : ℚ → ℚ) (p0 p1 : Vec3) (restLen w0 w1 stiffness : ℚ) :
    Vec3 × Vec3 :=
  let d := p1 - p0
  let len := sq (dot d d)
  if len < 1 / 100000000 then (p0, p1)
  else
    let n := vdiv d len
    let C := len - restLen
    let wsum := w0 + w1
    if wsum ≤ 0 then (p0, p1)
    else
      let corr := clampQ stiffness 0 1 • ((C / wsum) • n)
      (p0 + w0 • corr, p1 + (-w1) • corr)

/-- The mesh-collision body of `Physics::step` for one non-root point
(src/Physics.cpp lines 222–249): nearest-triangle query within
`2 × thickness`, ray-parity inside test, push-out by
`(thickness - dist)`, and the friction velocity rewrite of
`prevPoints[i]`.  Returns the updated `(points[i], prevPoints[i])`. -/
def collidePoint (sq : ℚ → ℚ) (m : Mesh) (bvh : Bvh)
    (thickness friction : ℚ) (p prev : Vec3) : Vec3 × Vec3 :=
  match Bvh.nearestTriangle sq bvh m p (thickness * 2) with
  | none => (p, prev)
  | some (_tri, cp, n) =>
      let d := p - cp
      let dist := sq (dot d d)
      if dist < thickness then
        let inside := isInsideMeshRayParity m bvh p
        let pushDir :=
          if 1 / 100000000 ≤ dist then
            (if inside then -(normalize sq d) else normalize sq d)
          else
            (if inside then n else n)
        let p' := p + (thickness - dist) • pushDir
        let nrm := pushDir
        let nl := sq (dot nrm nrm)
        let nrm' := if 1 / 100000000 < nl then vdiv nrm nl else nrm
        let v := p' - prev
        let vN := dot v nrm' • nrm'
        let vT := v - vN
        let fr := clampQ friction 0 1
        let vNew := (1 - fr) • vT
        (p', p' - vNew)
      else (p, prev)

/-! ## Fixed-timestep scheduler (src/Scene.cpp, `Scene::simulate`) -/

/-- One frame of `Scene::simulate`, abstracted over the state type and
the solver step (`Physics::step` or the GPU path; the claims hold for
any step function).  The `static float accumulator` is threaded
explicitly.  Returns the new accumulator, the final state, and the list
of timesteps handed to the step function (in order). -/
def simulateLoop {α : Type} (stepFn : ℚ → α → α) (fixedDt : ℚ) :
    ℕ → ℚ → α → List ℚ → ℚ × α × List ℚ
  | 0, acc, s, dts => (acc, s, dts)
  | maxLeft + 1, acc, s, dts =>
      if fixedDt ≤ acc then
        simulateLoop stepFn fixedDt maxLeft (acc - fixedDt) (stepFn fixedDt s)
          (dts ++ [fixedDt])
      else (acc, s, dts)

/-- `Scene::simulate` (src/Scene.cpp lines 804–827). -/
def simulate {α : Type} (stepFn : ℚ → α → α) (enableSimulation : Bool)
    (acc : ℚ) (dt : ℚ) (s : α) : ℚ × α × List ℚ :=
  if ¬enableSimulation then (acc, s, [])
  else
    let fixedDt : ℚ := 1 / 120
    let maxFrameDt : ℚ := 1 / 15
    let clampedDt := clampQ dt 0 maxFrameDt
    simulateLoop stepFn fixedDt 8 (acc + clampedDt) s []

/-- The selection-array/curve-array length invariant. -/
def SelInv (hg : HairGuideSet) : Prop :=
  hg.selected.length = hg.curves.length

/-! ## Theorems -/

namespace Vec3

theorem dot_self_nonneg (a : Vec3) : 0 ≤ dot a a := by
  have hx := sq_nonneg a.x
  have hy := sq_nonneg a.y
  have hz := sq_nonneg a.z
  simp only [dot]
  nlinarith

theorem distSq_nonneg (a b : Vec3) : 0 ≤ distSq a b := dot_self_nonneg _

/-- Cauchy–Schwarz for 3-vectors: `(a·b)² ≤ (a·a)(b·b)`. -/
theorem dot_sq_le (a b : Vec3) : dot a b * dot a b ≤ dot a a * dot b b := by
  have h1 := sq_nonneg (a.y * b.z - a.z * b.y)
  have h2 := sq_nonneg (a.z * b.x - a.x * b.z)
  have h3 := sq_nonneg (a.x * b.y - a.y * b.x)
  simp only [dot]
  nlinarith

end Vec3

/-!
Scalar core of the 7-region analysis.  With `U = ab·ab`, `V = ac·ac`,
`D = ab·ac`, `al = ab·ap`, `be = ac·ap` one has `d3 = al - U`,
`d4 = be - D`, `d5 = al - D`, `d6 = be - V`, and the three barycentric
numerators become `vc = U*be - D*al`, `vb = V*al - D*be`,
`va = (U*V - D*D) - (V-D)*al - (U-D)*be`, with `va + vb + vc = U*V - D*D`.
The lemmas below show that if none of the six early-out tests of
`closestPointOnTriangle` fires and the triangle is nondegenerate
(`U*V - D*D > 0`), all three numerators are nonnegative.
-/

theorem regionVC (U V D al be : ℚ) (hU : 0 ≤ U) (hV : 0 ≤ V)
    (hs : 0 < U * V - D * D)
    (h1 : ¬(al ≤ 0 ∧ be ≤ 0))
    (h2 : ¬(al - U ≥ 0 ∧ be - D ≤ al - U))
    (h3 : ¬(U * be - D * al ≤ 0 ∧ al ≥ 0 ∧ al - U ≤ 0))
    (h4 : ¬(be - V ≥ 0 ∧ al - D ≤ be - V))
    (h5 : ¬(V * al - D * be ≤ 0 ∧ be ≥ 0 ∧ be - V ≤ 0))
    (h6 : ¬((U * V - D * D) - (V - D) * al - (U - D) * be ≤ 0 ∧
            (be - D) - (al - U) ≥ 0 ∧ (al - D) - (be - V) ≥ 0)) :
    0 ≤ U * be - D * al := by
  by_contra hvc
  push_neg at hvc
  have hU' : 0 < U := by nlinarith
  have hV' : 0 < V := by nlinarith
  have h3' : al < 0 ∨ U < al := by
    by_contra hc
    push_neg at hc
    exact h3 ⟨hvc.le, hc.1, by linarith [hc.2]⟩
  rcases h3' with hA | hB
  · -- vertex-A side: al < 0
    have hbe : 0 < be := by
      by_contra hb
      push_neg at hb
      exact h1 ⟨hA.le, hb⟩
    have hD : D < 0 := by
      by_contra hD'
      push_neg at hD'
      nlinarith [mul_pos hU' hbe, mul_nonpos_of_nonneg_of_nonpos hD' hA.le]
    have h5' : 0 < V * al - D * be ∨ V < be := by
      by_contra hc
      push_neg at hc
      exact h5 ⟨hc.1, hbe.le, by linarith [hc.2]⟩
    rcases h5' with hvb | hbeV
    · have t1 : V * (U * be) < V * (D * al) := mul_lt_mul_of_pos_left (by linarith) hV'
      have t2 : D * (V * al) < D * (D * be) := mul_lt_mul_of_neg_left (by linarith) hD
      nlinarith [t1, t2, mul_pos hs hbe]
    · have h4' : be - V < al - D := by
        by_contra hc
        push_neg at hc
        exact h4 ⟨by linarith, hc⟩
      have t1 : D * al < D * (D + be - V) := mul_lt_mul_of_neg_left (by linarith) hD
      have t2 : V * (U - D) < be * (U - D) :=
        mul_lt_mul_of_pos_right hbeV (by linarith)
      nlinarith [t1, t2, hvc]
  · -- al > U
    have h2' : al - U < be - D := by
      by_contra hc
      push_neg at hc
      exact h2 ⟨by linarith, hc⟩
    rcases lt_trichotomy D U with hDU | hDU | hDU
    · have t1 : U * (D + al - U) < U * be := mul_lt_mul_of_pos_left (by linarith) hU'
      have t2 : 0 < (al - U) * (U - D) := mul_pos (by linarith) (by linarith)
      nlinarith [t1, t2, hvc]
    · subst hDU
      nlinarith [hvc, h2', hU']
    · have hD0 : 0 < D := lt_trans hU' hDU
      have hVD : D < V := by
        by_contra hc
        push_neg at hc
        nlinarith [mul_le_mul_of_nonneg_left hc hU, mul_lt_mul_of_pos_right hDU hD0]
      have hbeD : D < be := by linarith
      have h5' : 0 < V * al - D * be ∨ V < be := by
        by_contra hc
        push_neg at hc
        exact h5 ⟨hc.1, by linarith, by linarith [hc.2]⟩
      rcases h5' with hvb | hbeV
      · -- vb > 0
        have h6' : 0 < (U * V - D * D) - (V - D) * al - (U - D) * be ∨
            al - D < be - V := by
          by_contra hc
          push_neg at hc
          exact h6 ⟨hc.1, by linarith [h2'], by linarith [hc.2]⟩
        rcases h6' with hva | halD
        · have t1 : (V - D) * (U * be) < (V - D) * (D * al) :=
            mul_lt_mul_of_pos_left (by linarith) (by linarith)
          nlinarith [t1, mul_pos hD0 hva, mul_pos hs (show 0 < be - D by linarith)]
        · have hbV : be < V := by
            rcases (show be < V ∨ be - V < al - D by
              by_contra hc
              push_neg at hc
              exact h4 ⟨by linarith [hc.1], hc.2⟩) with h | h
            · exact h
            · linarith
          have t1 : V * al < V * (D + be - V) := mul_lt_mul_of_pos_left (by linarith) hV'
          have t2 : 0 < (V - D) * (V - be) := mul_pos (by linarith) (by linarith)
          nlinarith [t1, t2, hvb]
      · -- be > V
        have h4' : be - V < al - D := by
          by_contra hc
          push_neg at hc
          exact h4 ⟨by linarith, hc⟩
        have hva : 0 < (U * V - D * D) - (V - D) * al - (U - D) * be := by
          rcases (show 0 < (U * V - D * D) - (V - D) * al - (U - D) * be ∨
              al - D < be - V by
            by_contra hc
            push_neg at hc
            exact h6 ⟨hc.1, by linarith [h2'], by linarith [hc.2]⟩) with h | h
          · exact h
          · linarith
        have t1 : (V - D) * (D + be - V) < (V - D) * al :=
          mul_lt_mul_of_pos_left (by linarith) (by linarith)
        have t2 : 0 < U + V - 2 * D := by nlinarith [sq_nonneg (U - V), sq_nonneg (U + V)]
        have t3 : 0 < (be - V) * (U + V - 2 * D) := mul_pos (by linarith) t2
        nlinarith [t1, hva, t3]

private theorem regionVAaux (U V D al be : ℚ) (hU : 0 ≤ U) (hV : 0 ≤ V)
    (hs : 0 < U * V - D * D)
    (h1 : ¬(al ≤ 0 ∧ be ≤ 0))
    (h2 : ¬(al - U ≥ 0 ∧ be - D ≤ al - U))
    (h3 : ¬(U * be - D * al ≤ 0 ∧ al ≥ 0 ∧ al - U ≤ 0))
    (hvb : 0 ≤ V * al - D * be)
    (hva : (U * V - D * D) - (V - D) * al - (U - D) * be < 0)
    (hcase : be - D < al - U) : False := by
  have hU' : 0 < U := by nlinarith
  have hV' : 0 < V := by nlinarith
  have halU : al < U := by
    rcases (show al - U < 0 ∨ al - U < be - D by
      by_contra hc
      push_neg at hc
      exact h2 ⟨hc.1, by linarith [hc.2]⟩) with h | h
    · linarith
    · linarith
  have h3' : 0 < U * be - D * al ∨ al < 0 := by
    by_contra hc
    push_neg at hc
    exact h3 ⟨hc.1, hc.2, by linarith⟩
  rcases h3' with hvc | hal
  · rcases lt_trichotomy D U with hDU | hDU | hDU
    · have t1 : U * be < U * (D + al - U) := mul_lt_mul_of_pos_left (by linarith) hU'
      have t2 : 0 < (U - al) * (U - D) := mul_pos (by linarith) (by linarith)
      nlinarith [t1, t2, hvc]
    · subst hDU
      nlinarith [hvc, hcase, hU']
    · have hD0 : 0 < D := lt_trans hU' hDU
      have t1 : (U - D) * (U * be) < (U - D) * (D * al) :=
        mul_lt_mul_of_neg_left (by linarith) (by linarith)
      have t2 : U * ((U * V - D * D) - (V - D) * al - (U - D) * be) < 0 :=
        mul_neg_of_pos_of_neg hU' hva
      have t3 : 0 < (U * V - D * D) * (U - al) := mul_pos hs (by linarith)
      nlinarith [t1, t2, t3]
  · have hbe : 0 < be := by
      by_contra hb
      push_neg at hb
      exact h1 ⟨hal.le, hb⟩
    have hbeD : be < D := by linarith
    have hD0 : 0 < D := lt_trans hbe hbeD
    nlinarith [mul_pos hD0 hbe, mul_nonpos_of_nonneg_of_nonpos hV hal.le]

theorem regionVA (U V D al be : ℚ) (hU : 0 ≤ U) (hV : 0 ≤ V)
    (hs : 0 < U * V - D * D)
    (h1 : ¬(al ≤ 0 ∧ be ≤ 0))
    (h2 : ¬(al - U ≥ 0 ∧ be - D ≤ al - U))
    (h3 : ¬(U * be - D * al ≤ 0 ∧ al ≥ 0 ∧ al - U ≤ 0))
    (h4 : ¬(be - V ≥ 0 ∧ al - D ≤ be - V))
    (h5 : ¬(V * al - D * be ≤ 0 ∧ be ≥ 0 ∧ be - V ≤ 0))
    (h6 : ¬((U * V - D * D) - (V - D) * al - (U - D) * be ≤ 0 ∧
            (be - D) - (al - U) ≥ 0 ∧ (al - D) - (be - V) ≥ 0))
    (hvc : 0 ≤ U * be - D * al) (hvb : 0 ≤ V * al - D * be) :
    0 ≤ (U * V - D * D) - (V - D) * al - (U - D) * be := by
  by_contra hva
  push_neg at hva
  have h6' : be - D < al - U ∨ al - D < be - V := by
    by_contra hc
    push_neg at hc
    exact h6 ⟨hva.le, by linarith [hc.1], by linarith [hc.2]⟩
  rcases h6' with hc | hc
  · exact regionVAaux U V D al be hU hV hs h1 h2 h3 hvb hva hc
  · refine regionVAaux V U D be al hV hU (by nlinarith)
      (fun h => h1 ⟨h.2, h.1⟩) h4 h5 hvc (by nlinarith) hc

theorem regionVB (U V D al be : ℚ) (hU : 0 ≤ U) (hV : 0 ≤ V)
    (hs : 0 < U * V - D * D)
    (h1 : ¬(al ≤ 0 ∧ be ≤ 0))
    (h2 : ¬(al - U ≥ 0 ∧ be - D ≤ al - U))
    (h3 : ¬(U * be - D * al ≤ 0 ∧ al ≥ 0 ∧ al - U ≤ 0))
    (h4 : ¬(be - V ≥ 0 ∧ al - D ≤ be - V))
    (h5 : ¬(V * al - D * be ≤ 0 ∧ be ≥ 0 ∧ be - V ≤ 0))
    (h6 : ¬((U * V - D * D) - (V - D) * al - (U - D) * be ≤ 0 ∧
            (be - D) - (al - U) ≥ 0 ∧ (al - D) - (be - V) ≥ 0)) :
    0 ≤ V * al - D * be := by
  refine regionVC V U D be al hV hU (by nlinarith) (fun h => h1 ⟨h.2, h.1⟩)
    h4 h5 h2 h3 ?_
  intro h
  exact h6 ⟨by nlinarith [h.1], by linarith [h.2.2], by linarith [h.2.1]⟩

theorem dot3_eq (p a b c : Vec3) :
    dot (b - a) (p - b) = dot (b - a) (p - a) - dot (b - a) (b - a) := by
  cases p; cases a; cases b; cases c; simp only [sub_def, dot]; ring

theorem dot4_eq (p a b c : Vec3) :
    dot (c - a) (p - b) = dot (c - a) (p - a) - dot (b - a) (c - a) := by
  cases p; cases a; cases b; cases c; simp only [sub_def, dot]; ring

theorem dot5_eq (p a b c : Vec3) :
    dot (b - a) (p - c) = dot (b - a) (p - a) - dot (b - a) (c - a) := by
  cases p; cases a; cases b; cases c; simp only [sub_def, dot]; ring

theorem dot6_eq (p a b c : Vec3) :
    dot (c - a) (p - c) = dot (c - a) (p - a) - dot (c - a) (c - a) := by
  cases p; cases a; cases b; cases c; simp only [sub_def, dot]; ring

/-- The point returned by `closestPointOnTriangle` is always a convex
combination of the triangle's vertices (in particular it lies inside the
triangle's axis-aligned bounding box, which justifies the BVH's
distance pruning). -/
theorem closestPointOnTriangle_convex (p a b c : Vec3) :
    ∃ la lb lc : ℚ, 0 ≤ la ∧ 0 ≤ lb ∧ 0 ≤ lc ∧ la + lb + lc = 1 ∧
      closestPointOnTriangle p a b c = la • a + lb • b + lc • c := by
  have hU0 : 0 ≤ dot (b - a) (b - a) := dot_self_nonneg _
  have hV0 : 0 ≤ dot (c - a) (c - a) := dot_self_nonneg _
  have hCS := dot_sq_le (b - a) (c - a)
  simp only [closestPointOnTriangle, dot3_eq p a b c, dot4_eq p a b c,
    dot5_eq p a b c, dot6_eq p a b c]
  set U := dot (b - a) (b - a) with hUdef
  set V := dot (c - a) (c - a) with hVdef
  set D := dot (b - a) (c - a) with hDdef
  set al := dot (b - a) (p - a) with haldef
  set be := dot (c - a) (p - a) with hbedef
  split_ifs with h1 h2 h3 h4 h5 h6
  · exact ⟨1, 0, 0, by norm_num, by norm_num, by norm_num, by norm_num, by
      cases a; cases b; cases c
      simp only [smul_def, add_def, Vec3.mk.injEq]
      refine ⟨by ring, by ring, by ring⟩⟩
  · exact ⟨0, 1, 0, by norm_num, by norm_num, by norm_num, by norm_num, by
      cases a; cases b; cases c
      simp only [smul_def, add_def, Vec3.mk.injEq]
      refine ⟨by ring, by ring, by ring⟩⟩
  · -- edge AB region: v = al / U
    have hden : al - (al - U) = U := by ring
    rw [hden]
    rcases eq_or_lt_of_le hU0 with hUz | hUpos
    · refine ⟨1, 0, 0, by norm_num, by norm_num, by norm_num, by norm_num, ?_⟩
      rw [← hUz, div_zero]
      cases a; cases b; cases c
      simp only [smul_def, add_def, sub_def, Vec3.mk.injEq]
      refine ⟨by ring, by ring, by ring⟩
    · obtain ⟨-, hd1, hd3⟩ := h3
      have hv0 : 0 ≤ al / U := div_nonneg hd1 hU0
      have hv1 : al / U ≤ 1 := (div_le_one hUpos).2 (by linarith)
      refine ⟨1 - al / U, al / U, 0, by linarith, hv0, le_refl 0, by ring, ?_⟩
      cases a; cases b; cases c
      simp only [smul_def, add_def, sub_def, Vec3.mk.injEq]
      refine ⟨by ring, by ring, by ring⟩
  · exact ⟨0, 0, 1, by norm_num, by norm_num, by norm_num, by norm_num, by
      cases a; cases b; cases c
      simp only [smul_def, add_def, Vec3.mk.injEq]
      refine ⟨by ring, by ring, by ring⟩⟩
  · -- edge AC region: w = be / V
    have hden : be - (be - V) = V := by ring
    rw [hden]
    rcases eq_or_lt_of_le hV0 with hVz | hVpos
    · refine ⟨1, 0, 0, by norm_num, by norm_num, by norm_num, by norm_num, ?_⟩
      rw [← hVz, div_zero]
      cases a; cases b; cases c
      simp only [smul_def, add_def, sub_def, Vec3.mk.injEq]
      refine ⟨by ring, by ring, by ring⟩
    · obtain ⟨-, hd2, hd6⟩ := h5
      have hw0 : 0 ≤ be / V := div_nonneg hd2 hV0
      have hw1 : be / V ≤ 1 := (div_le_one hVpos).2 (by linarith)
      refine ⟨1 - be / V, 0, be / V, by linarith, le_refl 0, hw0, by ring, ?_⟩
      cases a; cases b; cases c
      simp only [smul_def, add_def, sub_def, Vec3.mk.injEq]
      refine ⟨by ring, by ring, by ring⟩
  · -- edge BC region
    obtain ⟨-, he1, he2⟩ := h6
    set e1 := be - D - (al - U) with he1def
    set e2 := al - D - (be - V) with he2def
    rcases eq_or_lt_of_le (by linarith : (0:ℚ) ≤ e1 + e2) with hez | hepos
    · refine ⟨0, 1, 0, by norm_num, by norm_num, by norm_num, by norm_num, ?_⟩
      rw [← hez, div_zero]
      cases a; cases b; cases c
      simp only [smul_def, add_def, sub_def, Vec3.mk.injEq]
      refine ⟨by ring, by ring, by ring⟩
    · have hw0 : 0 ≤ e1 / (e1 + e2) := div_nonneg he1 (by linarith)
      have hw1 : e1 / (e1 + e2) ≤ 1 := (div_le_one hepos).2 (by linarith)
      refine ⟨0, 1 - e1 / (e1 + e2), e1 / (e1 + e2), le_refl 0, by linarith, hw0,
        by ring, ?_⟩
      cases a; cases b; cases c
      simp only [smul_def, add_def, sub_def, Vec3.mk.injEq]
      refine ⟨by ring, by ring, by ring⟩
  · -- interior region
    have hvc_eq : al * (be - D) - (al - U) * be = U * be - D * al := by ring
    have hvb_eq : (al - D) * be - al * (be - V) = V * al - D * be := by ring
    have hva_eq : (al - U) * (be - V) - (al - D) * (be - D) =
        (U * V - D * D) - (V - D) * al - (U - D) * be := by ring
    rw [hvc_eq] at h3
    rw [hvb_eq] at h5
    rw [hva_eq] at h6
    rw [hva_eq, hvb_eq, hvc_eq]
    have hsum : (U * V - D * D) - (V - D) * al - (U - D) * be +
        (V * al - D * be) + (U * be - D * al) = U * V - D * D := by ring
    rw [hsum]
    rcases eq_or_lt_of_le (by nlinarith : (0:ℚ) ≤ U * V - D * D) with hsz | hspos
    · refine ⟨1, 0, 0, by norm_num, by norm_num, by norm_num, by norm_num, ?_⟩
      rw [← hsz]
      cases a; cases b; cases c
      simp only [smul_def, add_def, sub_def, Vec3.mk.injEq]
      norm_num
    · have hvc := regionVC U V D al be hU0 hV0 hspos h1 h2 h3 h4 h5 h6
      have hvb := regionVB U V D al be hU0 hV0 hspos h1 h2 h3 h4 h5 h6
      have hva := regionVA U V D al be hU0 hV0 hspos h1 h2 h3 h4 h5 h6 hvc hvb
      set s := U * V - D * D with hsdef
      set va := s - (V - D) * al - (U - D) * be with hvadef
      set vb := V * al - D * be with hvbdef
      set vc := U * be - D * al with hvcdef
      have hsne : s ≠ 0 := ne_of_gt hspos
      refine ⟨va / s, vb / s, vc / s, div_nonneg hva hspos.le,
        div_nonneg hvb hspos.le, div_nonneg hvc hspos.le, ?_, ?_⟩
      · field_simp
        rw [hvadef]
        ring
      · have hvasum : va = s - vb - vc := by rw [hvadef, hvbdef, hvcdef]; ring
        cases a; cases b; cases c
        simp only [smul_def, add_def, sub_def, Vec3.mk.injEq, one_div]
        refine ⟨?_, ?_, ?_⟩ <;>
          · rw [hvasum]
            field_simp
            ring

private theorem axis_le (p lo hi q : ℚ) (h1 : lo ≤ q) (h2 : q ≤ hi) :
    (if p < lo then lo - p else if hi < p then p - hi else 0) *
      (if p < lo then lo - p else if hi < p then p - hi else 0) ≤
      (p - q) * (p - q) := by
  split_ifs with ha hb
  · nlinarith
  · nlinarith
  · nlinarith

/-- The squared AABB distance lower-bounds the squared distance to any
point of the box. -/
theorem aabbDistSq_le_distSq (p q bmin bmax : Vec3) (h : inBox q bmin bmax) :
    aabbDistSq p bmin bmax ≤ distSq p q := by
  obtain ⟨h1, h2, h3, h4, h5, h6⟩ := h
  have hx := axis_le p.x bmin.x bmax.x q.x h1 h2
  have hy := axis_le p.y bmin.y bmax.y q.y h3 h4
  have hz := axis_le p.z bmin.z bmax.z q.z h5 h6
  simp only [aabbDistSq, distSq, dot, sub_def]
  linarith

private theorem convex3_lo (la lb lc x1 x2 x3 v : ℚ) (h0 : 0 ≤ la)
    (h1 : 0 ≤ lb) (h2 : 0 ≤ lc) (hsum : la + lb + lc = 1)
    (ha : v ≤ x1) (hb : v ≤ x2) (hc : v ≤ x3) :
    v ≤ la * x1 + lb * x2 + lc * x3 := by
  have hv : la * v + lb * v + lc * v = v := by linear_combination v * hsum
  nlinarith [mul_nonneg h0 (sub_nonneg.2 ha), mul_nonneg h1 (sub_nonneg.2 hb),
    mul_nonneg h2 (sub_nonneg.2 hc), hv]

private theorem convex3_hi (la lb lc x1 x2 x3 v : ℚ) (h0 : 0 ≤ la)
    (h1 : 0 ≤ lb) (h2 : 0 ≤ lc) (hsum : la + lb + lc = 1)
    (ha : x1 ≤ v) (hb : x2 ≤ v) (hc : x3 ≤ v) :
    la * x1 + lb * x2 + lc * x3 ≤ v := by
  have hv : la * v + lb * v + lc * v = v := by linear_combination v * hsum
  nlinarith [mul_nonneg h0 (sub_nonneg.2 ha), mul_nonneg h1 (sub_nonneg.2 hb),
    mul_nonneg h2 (sub_nonneg.2 hc), hv]

/-- A convex combination of three box points stays in the box. -/
theorem convex_inBox (a b c bmin bmax : Vec3) (la lb lc : ℚ)
    (h0 : 0 ≤ la) (h1 : 0 ≤ lb) (h2 : 0 ≤ lc) (hsum : la + lb + lc = 1)
    (ha : inBox a bmin bmax) (hb : inBox b bmin bmax) (hc : inBox c bmin bmax) :
    inBox (la • a + lb • b + lc • c) bmin bmax := by
  obtain ⟨ha1, ha2, ha3, ha4, ha5, ha6⟩ := ha
  obtain ⟨hb1, hb2, hb3, hb4, hb5, hb6⟩ := hb
  obtain ⟨hc1, hc2, hc3, hc4, hc5, hc6⟩ := hc
  refine ⟨?_, ?_, ?_, ?_, ?_, ?_⟩ <;>
    simp only [smul_def, add_def]
  · exact convex3_lo la lb lc _ _ _ _ h0 h1 h2 hsum ha1 hb1 hc1
  · exact convex3_hi la lb lc _ _ _ _ h0 h1 h2 hsum ha2 hb2 hc2
  · exact convex3_lo la lb lc _ _ _ _ h0 h1 h2 hsum ha3 hb3 hc3
  · exact convex3_hi la lb lc _ _ _ _ h0 h1 h2 hsum ha4 hb4 hc4
  · exact convex3_lo la lb lc _ _ _ _ h0 h1 h2 hsum ha5 hb5 hc5
  · exact convex3_hi la lb lc _ _ _ _ h0 h1 h2 hsum ha6 hb6 hc6

/-- The computed closest point on a boxed triangle stays in the box, so
the AABB distance soundly prunes in `nearestTriangle`. -/
theorem aabbDistSq_le_triDistSq (m : Mesh) (p : Vec3) (t : ℕ)
    (bmin bmax : Vec3) (h : triInBox m t bmin bmax) :
    aabbDistSq p bmin bmax ≤ triDistSq m p t := by
  obtain ⟨ha, hb, hc⟩ := h
  obtain ⟨la, lb, lc, h0, h1, h2, hsum, heq⟩ :=
    closestPointOnTriangle_convex p (m.vertA t) (m.vertB t) (m.vertC t)
  refine aabbDistSq_le_distSq p _ bmin bmax ?_
  show inBox (triClosest m p t) bmin bmax
  rw [triClosest, heq]
  exact convex_inBox _ _ _ _ _ la lb lc h0 h1 h2 hsum ha hb hc

theorem Subtree.size_pos {m nodes tris ni first count size}
    (h : Subtree m nodes tris ni first count size) : 1 ≤ size := by
  cases h <;> omega

/-- A subtree is preserved when node entries at indices `≥ ni` are
unchanged (later appends, and patches of earlier nodes, are harmless). -/
theorem Subtree.mono_nodes {m nodes tris ni first count size}
    (h : Subtree m nodes tris ni first count size) (nodes' : List Node)
    (hagree : ∀ j node, ni ≤ j → nodes.get? j = some node →
      nodes'.get? j = some node) :
    Subtree m nodes' tris ni first count size := by
  induction h with
  | leaf ni first count node hget hleaf hfirst hcount hbox hlen =>
      exact Subtree.leaf ni first count node (hagree ni node le_rfl hget)
        hleaf hfirst hcount hbox hlen
  | node ni first count c1 c2 s1 s2 nl nr node hget hleaf hbox hlen hl hr
      hlgt hrgt hcnt hlsub hrsub ihl ihr =>
      exact Subtree.node ni first count c1 c2 s1 s2 nl nr node
        (hagree ni node le_rfl hget) hleaf hbox hlen hl hr hlgt hrgt hcnt
        (ihl fun j nd hj hg => hagree j nd (le_trans (le_of_lt hlgt) hj) hg)
        (ihr fun j nd hj hg => hagree j nd (le_trans (le_of_lt hrgt) hj) hg)

/-- Slices agree when the lists agree pointwise on the slice range. -/
theorem slice_eq_of_agree (l l' : List ℕ) (f c : ℕ)
    (hagree : ∀ i, f ≤ i → i < f + c → l'.get? i = l.get? i)
    (hlen : f + c ≤ l.length) (hlen' : f + c ≤ l'.length) :
    (l'.drop f).take c = (l.drop f).take c := by
  apply List.ext_get?
  intro n
  by_cases hn : n < c
  · rw [List.get?_take hn, List.get?_take hn, List.get?_drop, List.get?_drop]
    exact hagree (f + n) (Nat.le_add_right _ _) (by omega)
  · have h1 : ((l'.drop f).take c).length = c := by
      rw [List.length_take, List.length_drop]; omega
    have h2 : ((l.drop f).take c).length = c := by
      rw [List.length_take, List.length_drop]; omega
    rw [List.get?_eq_none.2 (by omega), List.get?_eq_none.2 (by omega)]

/-- A subtree is preserved when the triangle array is modified only
outside the subtree's slot range. -/
theorem Subtree.mono_tris {m nodes tris ni first count size}
    (h : Subtree m nodes tris ni first count size) (tris' : List ℕ)
    (hagree : ∀ i, first ≤ i → i < first + count → tris'.get? i = tris.get? i)
    (hlen' : tris.length ≤ tris'.length) :
    Subtree m nodes tris' ni first count size := by
  induction h with
  | leaf ni first count node hget hleaf hfirst hcount hbox hlen =>
      refine Subtree.leaf ni first count node hget hleaf hfirst hcount ?_ (by omega)
      rw [slice_eq_of_agree tris tris' first count hagree hlen (by omega)]
      exact hbox
  | node ni first count c1 c2 s1 s2 nl nr node hget hleaf hbox hlen hl hr
      hlgt hrgt hcnt hlsub hrsub ihl ihr =>
      refine Subtree.node ni first count c1 c2 s1 s2 nl nr node hget hleaf ?_
        (by omega) hl hr hlgt hrgt hcnt
        (ihl fun i h1 h2 => hagree i h1 (by omega))
        (ihr fun i h1 h2 => hagree i (by omega) (by omega))
      rw [slice_eq_of_agree tris tris' first count hagree hlen (by omega)]
      exact hbox

/-- Behaviour of the leaf scan: the running best never worsens, bounds
every scanned triangle, and either is untouched or records an actually
scanned triangle together with its closest point, strictly improving. -/
theorem scanRange_spec (sq : ℚ → ℚ) (m : Mesh) (p : Vec3) (ts : List ℕ)
    (best : NearRes) :
    (scanRange sq m p ts best).dSq ≤ best.dSq ∧
    (∀ t ∈ ts, (scanRange sq m p ts best).dSq ≤ triDistSq m p t) ∧
    (scanRange sq m p ts best = best ∨
      ∃ t ∈ ts, (scanRange sq m p ts best).tri = Int.ofNat t ∧
        (scanRange sq m p ts best).cp = triClosest m p t ∧
        (scanRange sq m p ts best).dSq = triDistSq m p t ∧
        (scanRange sq m p ts best).dSq < best.dSq) := by
  induction ts generalizing best with
  | nil => exact ⟨le_rfl, by simp, Or.inl rfl⟩
  | cons t ts ih =>
      have hred : scanRange sq m p (t :: ts) best =
          scanRange sq m p ts (scanTri sq m p best t) := rfl
      have hstep : (scanTri sq m p best t).dSq ≤ best.dSq ∧
          (scanTri sq m p best t).dSq ≤ triDistSq m p t ∧
          (scanTri sq m p best t = best ∨
            ((scanTri sq m p best t).tri = Int.ofNat t ∧
             (scanTri sq m p best t).cp = triClosest m p t ∧
             (scanTri sq m p best t).dSq = triDistSq m p t ∧
             (scanTri sq m p best t).dSq < best.dSq)) := by
        simp only [scanTri, triDistSq, triClosest, distSq]
        split_ifs with h
        · exact ⟨le_of_lt h, le_rfl, Or.inr ⟨rfl, rfl, rfl, h⟩⟩
        · exact ⟨le_rfl, le_of_not_lt h, Or.inl rfl⟩
      obtain ⟨hs1, hs2, hs3⟩ := hstep
      obtain ⟨ih1, ih2, ih3⟩ := ih (scanTri sq m p best t)
      rw [hred]
      refine ⟨le_trans ih1 hs1, ?_, ?_⟩
      · intro t' ht'
        rcases List.mem_cons.1 ht' with rfl | hmem
        · exact le_trans ih1 hs2
        · exact ih2 t' hmem
      · rcases ih3 with heq | ⟨t', ht', ha, hb, hc, hd⟩
        · rw [heq]
          rcases hs3 with hb | ⟨ha, hb, hc, hd⟩
          · exact Or.inl hb
          · exact Or.inr ⟨t, List.mem_cons_self t ts, ha, hb, hc, hd⟩
        · exact Or.inr ⟨t', List.mem_cons_of_mem t ht', ha, hb, hc,
            lt_of_lt_of_le hd hs1⟩

private theorem toNat_ofNat' (n : ℕ) : (Int.ofNat n).toNat = n := rfl

theorem slice_split (l : List ℕ) (f c1 c2 : ℕ) :
    (l.drop f).take (c1 + c2) = (l.drop f).take c1 ++ (l.drop (f + c1)).take c2 := by
  rw [List.take_add]
  congr 1
  rw [List.drop_drop, Nat.add_comm]

/-- Invariant of the explicit-stack loop of `nearestTriangle`: given a
stack of well-formed subtree roots, the loop returns a best record that
(a) never worsens, (b) lower-bounds the distance of every triangle
covered by the stack, and (c) if changed, reports a covered triangle
with its computed closest point and squared distance. -/
theorem nearestGo_spec (sq : ℚ → ℚ) (m : Mesh) (bvh : Bvh) (p : Vec3) :
    ∀ (fuel : ℕ) (stack : List ℕ) (specs : List (ℕ × ℕ × ℕ)) (best : NearRes),
      List.Forall₂
        (fun ni s => Subtree m bvh.nodes bvh.triIndices ni s.1 s.2.1 s.2.2)
        stack specs →
      (specs.map fun s => s.2.2).sum < fuel →
      (nearestGo sq m bvh p fuel stack best).dSq ≤ best.dSq ∧
      (∀ s ∈ specs, ∀ t ∈ (bvh.triIndices.drop s.1).take s.2.1,
        (nearestGo sq m bvh p fuel stack best).dSq ≤ triDistSq m p t) ∧
      (nearestGo sq m bvh p fuel stack best = best ∨
        ∃ s ∈ specs, ∃ t ∈ (bvh.triIndices.drop s.1).take s.2.1,
          (nearestGo sq m bvh p fuel stack best).tri = Int.ofNat t ∧
          (nearestGo sq m bvh p fuel stack best).cp = triClosest m p t ∧
          (nearestGo sq m bvh p fuel stack best).dSq = triDistSq m p t ∧
          (nearestGo sq m bvh p fuel stack best).dSq < best.dSq) := by
  intro fuel
  induction fuel with
  | zero => intro stack specs best hf hsum; exact absurd hsum (Nat.not_lt_zero _)
  | succ fuel ih =>
      intro stack specs best hf hsum
      cases hf with
      | nil => exact ⟨le_rfl, by simp, Or.inl rfl⟩
      | @cons ni s stack' specs' hrel htail =>
        obtain ⟨f, c, sz⟩ := s
        simp only at hrel
        have hgetD : ∀ node, bvh.nodes.get? ni = some node →
            bvh.nodes.getD ni default = node := by
          intro node hget
          simp [List.getD_eq_getElem?_getD, ← List.get?_eq_getElem?, hget]
        cases hrel with
        | leaf _ _ _ node hget hleaf hfirst hcount hbox hlen =>
            have hsum' : (specs'.map fun s => s.2.2).sum < fuel := by
              simp only [List.map_cons, List.sum_cons] at hsum; omega
            simp only [nearestGo, hgetD node hget]
            rw [if_pos hleaf]
            split_ifs with hprune
            · obtain ⟨ih1, ih2, ih3⟩ := ih stack' specs' best htail hsum'
              refine ⟨ih1, ?_, ?_⟩
              · intro s'' hs'' t ht
                rcases List.mem_cons.1 hs'' with rfl | hmem
                · have hd2 := aabbDistSq_le_triDistSq m p t node.bmin node.bmax
                    (hbox t ht)
                  exact le_trans ih1 (le_trans hprune.le hd2)
                · exact ih2 s'' hmem t ht
              · rcases ih3 with heq | ⟨s'', hs'', t, ht, hh⟩
                · exact Or.inl heq
                · exact Or.inr ⟨s'', List.mem_cons_of_mem _ hs'', t, ht, hh⟩
            · rw [hfirst, hcount]
              obtain ⟨sc1, sc2, sc3⟩ := scanRange_spec sq m p
                ((bvh.triIndices.drop f).take c) best
              obtain ⟨ih1, ih2, ih3⟩ := ih stack' specs'
                (scanRange sq m p ((bvh.triIndices.drop f).take c) best) htail hsum'
              refine ⟨le_trans ih1 sc1, ?_, ?_⟩
              · intro s'' hs'' t ht
                rcases List.mem_cons.1 hs'' with rfl | hmem
                · exact le_trans ih1 (sc2 t ht)
                · exact ih2 s'' hmem t ht
              · rcases ih3 with heq | ⟨s'', hs'', t, ht, hh⟩
                · rw [heq]
                  rcases sc3 with heq2 | ⟨t, ht, hh⟩
                  · exact Or.inl heq2
                  · exact Or.inr ⟨(f, c, 1), List.mem_cons_self _ _, t, ht, hh⟩
                · exact Or.inr ⟨s'', List.mem_cons_of_mem _ hs'', t, ht, hh.1,
                    hh.2.1, hh.2.2.1, lt_of_lt_of_le hh.2.2.2 sc1⟩
        | node _ _ _ c1 c2 s1 s2 nl nr node hget hleaf hbox hlen hl hr hlgt
            hrgt hcnt hlsub hrsub =>
            have hsum' : s2 + (s1 + (specs'.map fun s => s.2.2).sum) < fuel := by
              simp only [List.map_cons, List.sum_cons] at hsum; omega
            simp only [nearestGo, hgetD node hget]
            rw [if_neg (show ¬0 < node.triCount by omega), hl, hr,
              if_pos (show (0:ℤ) ≤ Int.ofNat nl by exact Int.ofNat_nonneg nl),
              if_pos (show (0:ℤ) ≤ Int.ofNat nr by exact Int.ofNat_nonneg nr)]
            simp only [toNat_ofNat']
            split_ifs with hprune
            · have hsum'' : (specs'.map fun s => s.2.2).sum < fuel := by omega
              obtain ⟨ih1, ih2, ih3⟩ := ih stack' specs' best htail hsum''
              refine ⟨ih1, ?_, ?_⟩
              · intro s'' hs'' t ht
                rcases List.mem_cons.1 hs'' with rfl | hmem
                · have hd2 := aabbDistSq_le_triDistSq m p t node.bmin node.bmax
                    (hbox t ht)
                  exact le_trans ih1 (le_trans hprune.le hd2)
                · exact ih2 s'' hmem t ht
              · rcases ih3 with heq | ⟨s'', hs'', t, ht, hh⟩
                · exact Or.inl heq
                · exact Or.inr ⟨s'', List.mem_cons_of_mem _ hs'', t, ht, hh⟩
            · have hforall :
                  List.Forall₂
                    (fun ni s => Subtree m bvh.nodes bvh.triIndices ni s.1 s.2.1 s.2.2)
                    (nr :: nl :: stack')
                    ((f + c1, c2, s2) :: (f, c1, s1) :: specs') :=
                List.Forall₂.cons hrsub (List.Forall₂.cons hlsub htail)
              obtain ⟨ih1, ih2, ih3⟩ := ih (nr :: nl :: stack')
                ((f + c1, c2, s2) :: (f, c1, s1) :: specs') best hforall
                (by simp only [List.map_cons, List.sum_cons]; omega)
              have hsplit : (bvh.triIndices.drop f).take c =
                  (bvh.triIndices.drop f).take c1 ++
                    (bvh.triIndices.drop (f + c1)).take c2 := by
                rw [← hcnt]; exact slice_split _ _ _ _
              refine ⟨ih1, ?_, ?_⟩
              · intro s'' hs'' t ht
                rcases List.mem_cons.1 hs'' with rfl | hmem
                · rw [hsplit] at ht
                  rcases List.mem_append.1 ht with h | h
                  · exact ih2 (f, c1, s1)
                      (List.mem_cons_of_mem _ (List.mem_cons_self _ _)) t h
                  · exact ih2 (f + c1, c2, s2) (List.mem_cons_self _ _) t h
                · exact ih2 s''
                    (List.mem_cons_of_mem _ (List.mem_cons_of_mem _ hmem)) t ht
              · rcases ih3 with heq | ⟨s'', hs'', t, ht, hh⟩
                · exact Or.inl heq
                · rcases List.mem_cons.1 hs'' with rfl | hmem
                  · refine Or.inr ⟨(f, c, s1 + s2 + 1), List.mem_cons_self _ _,
                      t, ?_, hh⟩
                    rw [hsplit]
                    exact List.mem_append.2 (Or.inr ht)
                  · rcases List.mem_cons.1 hmem with rfl | hmem2
                    · refine Or.inr ⟨(f, c, s1 + s2 + 1), List.mem_cons_self _ _,
                        t, ?_, hh⟩
                      rw [hsplit]
                      exact List.mem_append.2 (Or.inl ht)
                    · exact Or.inr ⟨s'', List.mem_cons_of_mem _ hmem2, t, ht, hh⟩

theorem boxLe_refl (a : Vec3) : boxLe a a := ⟨le_rfl, le_rfl, le_rfl⟩

theorem boxLe_trans {a b c : Vec3} (h1 : boxLe a b) (h2 : boxLe b c) :
    boxLe a c :=
  ⟨le_trans h1.1 h2.1, le_trans h1.2.1 h2.2.1, le_trans h1.2.2 h2.2.2⟩

theorem boxLe_cmin_left (a b : Vec3) : boxLe (cmin a b) a :=
  ⟨min_le_left _ _, min_le_left _ _, min_le_left _ _⟩

theorem boxLe_cmax_left (a b : Vec3) : boxLe a (cmax a b) :=
  ⟨le_max_left _ _, le_max_left _ _, le_max_left _ _⟩

theorem inBox_mono {q lo hi lo' hi' : Vec3} (h : inBox q lo hi)
    (h1 : boxLe lo' lo) (h2 : boxLe hi hi') : inBox q lo' hi' :=
  ⟨le_trans h1.1 h.1, le_trans h.2.1 h2.1, le_trans h1.2.1 h.2.2.1,
   le_trans h.2.2.2.1 h2.2.1, le_trans h1.2.2 h.2.2.2.2.1,
   le_trans h.2.2.2.2.2 h2.2.2⟩

theorem triInBox_mono {m t} {lo hi lo' hi' : Vec3} (h : triInBox m t lo hi)
    (h1 : boxLe lo' lo) (h2 : boxLe hi hi') : triInBox m t lo' hi' :=
  ⟨inBox_mono h.1 h1 h2, inBox_mono h.2.1 h1 h2, inBox_mono h.2.2 h1 h2⟩

theorem triInBox_own (m : Mesh) (t : ℕ) :
    triInBox m t (triMin m t) (triMax m t) := by
  unfold triInBox inBox triMin triMax cmin cmax
  refine ⟨⟨?_, ?_, ?_, ?_, ?_, ?_⟩, ⟨?_, ?_, ?_, ?_, ?_, ?_⟩,
    ⟨?_, ?_, ?_, ?_, ?_, ?_⟩⟩ <;> simp [le_max_iff, min_le_iff]

theorem foldBounds_mono (m : Mesh) (l : List ℕ) (acc : Vec3 × Vec3) :
    boxLe (foldBounds m l acc).1 acc.1 ∧ boxLe acc.2 (foldBounds m l acc).2 := by
  induction l generalizing acc with
  | nil => exact ⟨boxLe_refl _, boxLe_refl _⟩
  | cons t l ih =>
      obtain ⟨ih1, ih2⟩ := ih (cmin acc.1 (triMin m t), cmax acc.2 (triMax m t))
      exact ⟨boxLe_trans ih1 (boxLe_cmin_left _ _),
        boxLe_trans (boxLe_cmax_left _ _) ih2⟩

theorem foldBounds_contains (m : Mesh) (l : List ℕ) (acc : Vec3 × Vec3) :
    ∀ t ∈ l, triInBox m t (foldBounds m l acc).1 (foldBounds m l acc).2 := by
  induction l generalizing acc with
  | nil => intro t ht; cases ht
  | cons t0 l ih =>
      intro t ht
      rcases List.mem_cons.1 ht with rfl | hmem
      · have hstep : triInBox m t
            (cmin acc.1 (triMin m t)) (cmax acc.2 (triMax m t)) :=
          triInBox_mono (triInBox_own m t)
            ⟨min_le_right _ _, min_le_right _ _, min_le_right _ _⟩
            ⟨le_max_right _ _, le_max_right _ _, le_max_right _ _⟩
        obtain ⟨hm1, hm2⟩ := foldBounds_mono m l
          (cmin acc.1 (triMin m t), cmax acc.2 (triMax m t))
        exact triInBox_mono hstep hm1 hm2
      · exact ih _ t hmem

/-- Every triangle of the slice lies in the box computed by
`rangeBounds`. -/
theorem rangeBounds_spec (m : Mesh) (tris : List ℕ) (first count : ℕ) :
    ∀ t ∈ (tris.drop first).take count,
      triInBox m t (rangeBounds m tris first count).1
        (rangeBounds m tris first count).2 := by
  intro t ht
  unfold rangeBounds
  rcases hsl : (tris.drop first).take count with _ | ⟨t0, rest⟩
  · rw [hsl] at ht; cases ht
  · rw [hsl] at ht
    rcases List.mem_cons.1 ht with rfl | hmem
    · obtain ⟨hm1, hm2⟩ := foldBounds_mono m rest (triMin m t, triMax m t)
      exact triInBox_mono (triInBox_own m t) hm1 hm2
    · exact foldBounds_contains m rest (triMin m t0, triMax m t0) t hmem

theorem splitSorted_perm (m : Mesh) (bb : Vec3 × Vec3) (tris : List ℕ)
    (first count : ℕ) :
    (splitSorted m bb tris first count).Perm ((tris.drop first).take count) :=
  List.mergeSort_perm _ _

/-- Full behaviour of `buildNode`: the triangle array keeps its length,
is untouched outside the subrange, gets permuted inside it; already
existing nodes are untouched; and the freshly built nodes form a
well-formed subtree rooted at the old `m_nodes.size()`. -/
theorem buildNode_spec (m : Mesh) :
    ∀ (count : ℕ) (tris : List ℕ) (first : ℕ) (nodes : List Node),
      0 < count → first + count ≤ tris.length →
      (buildNode m tris first count nodes).2.length = tris.length ∧
      (∀ i, i < first ∨ first + count ≤ i →
        (buildNode m tris first count nodes).2.get? i = tris.get? i) ∧
      List.Perm (((buildNode m tris first count nodes).2.drop first).take count)
        ((tris.drop first).take count) ∧
      (∀ j, j < nodes.length →
        (buildNode m tris first count nodes).1.get? j = nodes.get? j) ∧
      ∃ size,
        (buildNode m tris first count nodes).1.length = nodes.length + size ∧
        Subtree m (buildNode m tris first count nodes).1
          (buildNode m tris first count nodes).2 nodes.length first count size := by
  intro count
  induction count using Nat.strong_induction_on with
  | _ count ih =>
    intro tris first nodes hpos hlen
    by_cases hc : count ≤ 8
    · -- leaf node
      have heq : buildNode m tris first count nodes =
          (nodes ++ [leafNode (rangeBounds m tris first count) first count], tris) := by
        rw [buildNode]
        simp [hc]
      rw [heq]
      refine ⟨rfl, fun i _ => rfl, List.Perm.refl _, ?_, 1, by simp, ?_⟩
      · intro j hj
        exact List.get?_append hj
      · refine Subtree.leaf _ _ _ (leafNode (rangeBounds m tris first count) first count)
          (List.get?_concat_length _ _) ?_ rfl rfl ?_ hlen
        · simpa [leafNode] using hpos
        · intro t ht
          exact rangeBounds_spec m tris first count t ht
    · -- interior node
      rw [buildNode]
      simp only [if_neg hc]
      have h9 : 8 < count := by omega
      set bb := rangeBounds m tris first count with hbb
      set srt := splitSorted m bb tris first count with hsrt
      set tris1 := tris.take first ++ srt ++ tris.drop (first + count) with htris1
      set nodes1 := nodes ++ [leafNode bb first count] with hnodes1
      set cL := count / 2 with hcL
      set cR := count - count / 2 with hcR
      set mid := first + cL with hmid
      have hsrt_perm : srt.Perm ((tris.drop first).take count) :=
        splitSorted_perm _ _ _ _ _
      have hslice_len : ((tris.drop first).take count).length = count := by
        rw [List.length_take, List.length_drop]; omega
      have hsrt_len : srt.length = count := by
        rw [hsrt_perm.length_eq, hslice_len]
      have htake_len : (tris.take first).length = first := by
        rw [List.length_take]; omega
      have htris1_len : tris1.length = tris.length := by
        rw [htris1]
        simp only [List.length_append, List.length_drop, htake_len, hsrt_len]
        omega
      have hnodes1_len : nodes1.length = nodes.length + 1 := by
        rw [hnodes1, List.length_append, List.length_cons, List.length_nil]
      have htris1_out : ∀ i, i < first ∨ first + count ≤ i →
          tris1.get? i = tris.get? i := by
        intro i hi
        rcases hi with hi | hi
        · rw [htris1, List.get?_append (by rw [List.length_append, htake_len]; omega),
            List.get?_append (by rw [htake_len]; omega), List.get?_take hi]
        · rw [htris1, List.get?_append_right (by rw [List.length_append, htake_len, hsrt_len]; omega)]
          rw [List.length_append, htake_len, hsrt_len, List.get?_drop]
          congr 1
          omega
      have htris1_slice : (tris1.drop first).take count = srt := by
        have h1 : tris1.drop first = srt ++ tris.drop (first + count) := by
          have hd := List.drop_left (tris.take first) (srt ++ tris.drop (first + count))
          rw [htake_len] at hd
          rw [htris1, List.append_assoc]
          exact hd
        have h2 := List.take_left srt (tris.drop (first + count))
        rw [hsrt_len] at h2
        rw [h1]
        exact h2
      -- left child
      obtain ⟨L1, L2, L3, L4, sizeL, L5, L6⟩ :=
        ih cL (by omega) tris1 first nodes1 (by omega) (by omega)
      set r2 := buildNode m tris1 first cL nodes1 with hr2
      -- right child
      obtain ⟨R1, R2, R3, R4, sizeR, R5, R6⟩ :=
        ih cR (by omega) r2.2 mid r2.1 (by omega)
          (by rw [L1, htris1_len]; omega)
      set r3 := buildNode m r2.2 mid cR r2.1 with hr3
      set pn := innerNode bb first nodes1.length r2.1.length with hpn
      have hr31len : r3.1.length = nodes.length + 1 + sizeL + sizeR := by
        rw [R5, L5, hnodes1_len]
      have hfin2 : ∀ i, i < first ∨ first + count ≤ i →
          r3.2.get? i = tris.get? i := by
        intro i hi
        have hi' : i < mid ∨ mid + cR ≤ i := by
          rcases hi with h | h
          · exact Or.inl (by omega)
          · exact Or.inr (by omega)
        have hi'' : i < first ∨ first + cL ≤ i := by
          rcases hi with h | h
          · exact Or.inl h
          · exact Or.inr (by omega)
        rw [R2 i hi', L2 i hi'', htris1_out i hi]
      have hsliceL_eq : (r3.2.drop first).take cL = (r2.2.drop first).take cL :=
        slice_eq_of_agree r2.2 r3.2 first cL
          (fun i h1 h2 => R2 i (Or.inl (by omega)))
          (by rw [L1, htris1_len]; omega) (by rw [R1, L1, htris1_len]; omega)
      have hsliceR_eq : (r2.2.drop mid).take cR = (tris1.drop mid).take cR :=
        slice_eq_of_agree tris1 r2.2 mid cR
          (fun i h1 h2 => L2 i (Or.inr (by omega)))
          (by rw [htris1_len]; omega) (by rw [L1, htris1_len]; omega)
      have hperm : List.Perm ((r3.2.drop first).take count)
          ((tris.drop first).take count) := by
        have hsplit3 : (r3.2.drop first).take count =
            (r3.2.drop first).take cL ++ (r3.2.drop mid).take cR := by
          rw [show count = cL + cR by omega, slice_split, ← hmid]
        have hsplit1 : (tris1.drop first).take count =
            (tris1.drop first).take cL ++ (tris1.drop mid).take cR := by
          rw [show count = cL + cR by omega, slice_split, ← hmid]
        rw [hsplit3]
        refine List.Perm.trans
          (List.Perm.append (hsliceL_eq.symm ▸ L3) (hsliceR_eq ▸ R3)) ?_
        rw [← hsplit1, htris1_slice]
        exact hsrt_perm
      refine ⟨?_, ?_, ?_, ?_, sizeL + sizeR + 1, ?_, ?_⟩
      · show r3.2.length = tris.length
        rw [R1, L1, htris1_len]
      · exact hfin2
      · exact hperm
      · intro j hj
        show (r3.1.set nodes.length pn).get? j = nodes.get? j
        rw [List.get?_set_ne _ _ (by omega : nodes.length ≠ j),
          R4 j (by omega), L4 j (by omega)]
        exact List.get?_append hj
      · show (r3.1.set nodes.length pn).length = nodes.length + (sizeL + sizeR + 1)
        rw [List.length_set, hr31len]
        omega
      · show Subtree m (r3.1.set nodes.length pn) r3.2 nodes.length first count
          (sizeL + sizeR + 1)
        have hlsub : Subtree m (r3.1.set nodes.length pn) r3.2 nodes1.length
            first cL sizeL := by
          have step1 : Subtree m r2.1 r3.2 nodes1.length first cL sizeL := by
            refine L6.mono_tris r3.2
              (fun i h1 h2 => R2 i (Or.inl (by omega))) (by rw [R1])
          refine step1.mono_nodes _ ?_
          intro j nd hj hg
          have hjlt : j < r2.1.length := by
            by_contra hcn
            push_neg at hcn
            rw [List.get?_eq_none.2 hcn] at hg
            cases hg
          rw [List.get?_set_ne _ _ (by omega : nodes.length ≠ j), R4 j hjlt]
          exact hg
        have hrsub : Subtree m (r3.1.set nodes.length pn) r3.2 r2.1.length
            (first + cL) cR sizeR := by
          rw [hmid] at R6
          refine R6.mono_nodes _ ?_
          intro j nd hj hg
          rw [List.get?_set_ne _ _ (by omega : nodes.length ≠ j)]
          exact hg
        refine Subtree.node nodes.length first count cL cR sizeL sizeR
          nodes1.length r2.1.length pn ?_ ?_ ?_ ?_ ?_ ?_ ?_ ?_ ?_ hlsub hrsub
        · exact List.get?_set_eq_of_lt pn (by omega)
        · rfl
        · intro t ht
          have := rangeBounds_spec m tris first count t (hperm.mem_iff.1 ht)
          rw [← hbb] at this
          exact this
        · rw [R1, L1, htris1_len]; omega
        · rfl
        · rfl
        · omega
        · omega
        · omega

/-- `Bvh::build` on a nonempty mesh produces a permutation of
`[0, triCount)` and a well-formed tree rooted at node 0 whose size is
the whole node pool. -/
theorem build_spec (m : Mesh) (h : 0 < m.triCount) :
    (Bvh.build m).triIndices.length = m.triCount ∧
    List.Perm (Bvh.build m).triIndices (List.range m.triCount) ∧
    ∃ size, (Bvh.build m).nodes.length = size ∧
      Subtree m (Bvh.build m).nodes (Bvh.build m).triIndices 0 0 m.triCount size := by
  obtain ⟨h1, _, h3, _, size, h5, h6⟩ :=
    buildNode_spec m m.triCount (List.range m.triCount) 0 [] h
      (by rw [List.length_range]; omega)
  have hnodes : (Bvh.build m).nodes =
      (buildNode m (List.range m.triCount) 0 m.triCount []).1 := rfl
  have htris : (Bvh.build m).triIndices =
      (buildNode m (List.range m.triCount) 0 m.triCount []).2 := rfl
  rw [hnodes, htris]
  have hlen : (buildNode m (List.range m.triCount) 0 m.triCount []).2.length =
      m.triCount := by
    rw [h1, List.length_range]
  have hfix : ∀ l : List ℕ, l.length = m.triCount →
      (l.drop 0).take m.triCount = l := by
    intro l hl
    rw [List.drop_zero, ← hl, List.take_length]
  refine ⟨hlen, ?_, size, by simpa using h5, by simpa using h6⟩
  have h3' := h3
  rw [hfix _ hlen, hfix _ (List.length_range _)] at h3'
  exact h3'

/-- Characterization of the result record shared by the BVH query and the
brute-force scan. -/
theorem nearRes_char (m : Mesh) (p : Vec3) (maxDist : ℚ) (r : NearRes)
    (hg2 : ∀ t < m.triCount, r.dSq ≤ triDistSq m p t)
    (hg3 : r = ⟨maxDist * maxDist, -1, 0, ⟨0, 1, 0⟩⟩ ∨
      ∃ t < m.triCount, r.tri = Int.ofNat t ∧ r.cp = triClosest m p t ∧
        r.dSq = triDistSq m p t ∧ r.dSq < maxDist * maxDist) :
    (r.tri < 0 → ∀ t < m.triCount, maxDist * maxDist ≤ triDistSq m p t) ∧
    (¬r.tri < 0 → r.tri.toNat < m.triCount ∧
      r.cp = triClosest m p r.tri.toNat ∧
      triDistSq m p r.tri.toNat < maxDist * maxDist ∧
      (∀ t' < m.triCount, triDistSq m p r.tri.toNat ≤ triDistSq m p t') ∧
      r.dSq = triDistSq m p r.tri.toNat) := by
  constructor
  · intro hneg t ht
    rcases hg3 with heq | ⟨t0, ht0, ha, hb, hc, hd⟩
    · have hds : r.dSq = maxDist * maxDist := by rw [heq]
      rw [← hds]
      exact hg2 t ht
    · rw [ha] at hneg
      exact absurd hneg (by exact not_lt.2 (Int.ofNat_nonneg t0))
  · intro hnneg
    rcases hg3 with heq | ⟨t0, ht0, ha, hb, hc, hd⟩
    · rw [heq] at hnneg
      simp at hnneg
    · have htn : r.tri.toNat = t0 := by rw [ha]; rfl
      rw [htn]
      refine ⟨ht0, hb, by rw [← hc]; exact hd, ?_, hc⟩
      intro t' ht'
      rw [← hc]
      exact hg2 t' ht'

theorem slice_all (l : List ℕ) (n : ℕ) (h : l.length = n) :
    (l.drop 0).take n = l := by
  rw [List.drop_zero, ← h, List.take_length]

/-- Characterization of the brute-force scan, in the same shape as the
one obtained for the BVH query. -/
theorem bruteForce_char (sq : ℚ → ℚ) (m : Mesh) (p : Vec3) (maxDist : ℚ) :
    ((scanRange sq m p (List.range m.triCount)
        ⟨maxDist * maxDist, -1, 0, ⟨0, 1, 0⟩⟩).dSq ≤ maxDist * maxDist) ∧
    (∀ t < m.triCount, (scanRange sq m p (List.range m.triCount)
        ⟨maxDist * maxDist, -1, 0, ⟨0, 1, 0⟩⟩).dSq ≤ triDistSq m p t) ∧
    (scanRange sq m p (List.range m.triCount)
        ⟨maxDist * maxDist, -1, 0, ⟨0, 1, 0⟩⟩ =
          ⟨maxDist * maxDist, -1, 0, ⟨0, 1, 0⟩⟩ ∨
      ∃ t < m.triCount, (scanRange sq m p (List.range m.triCount)
          ⟨maxDist * maxDist, -1, 0, ⟨0, 1, 0⟩⟩).tri = Int.ofNat t ∧
        (scanRange sq m p (List.range m.triCount)
          ⟨maxDist * maxDist, -1, 0, ⟨0, 1, 0⟩⟩).cp = triClosest m p t ∧
        (scanRange sq m p (List.range m.triCount)
          ⟨maxDist * maxDist, -1, 0, ⟨0, 1, 0⟩⟩).dSq = triDistSq m p t ∧
        (scanRange sq m p (List.range m.triCount)
          ⟨maxDist * maxDist, -1, 0, ⟨0, 1, 0⟩⟩).dSq < maxDist * maxDist) := by
  obtain ⟨s1, s2, s3⟩ := scanRange_spec sq m p (List.range m.triCount)
    ⟨maxDist * maxDist, -1, 0, ⟨0, 1, 0⟩⟩
  refine ⟨s1, ?_, ?_⟩
  · intro t ht
    exact s2 t (List.mem_range.2 ht)
  · rcases s3 with heq | ⟨t, ht, hh⟩
    · exact Or.inl heq
    · exact Or.inr ⟨t, List.mem_range.1 ht, hh⟩

/-- Characterization of the BVH query result record (after `build`). -/
theorem bvhGo_char (sq : ℚ → ℚ) (m : Mesh) (p : Vec3) (maxDist : ℚ)
    (htri : 0 < m.triCount) :
    ((nearestGo sq m (Bvh.build m) p ((Bvh.build m).nodes.length + 1) [0]
        ⟨maxDist * maxDist, -1, 0, ⟨0, 1, 0⟩⟩).dSq ≤ maxDist * maxDist) ∧
    (∀ t < m.triCount, (nearestGo sq m (Bvh.build m) p
        ((Bvh.build m).nodes.length + 1) [0]
        ⟨maxDist * maxDist, -1, 0, ⟨0, 1, 0⟩⟩).dSq ≤ triDistSq m p t) ∧
    (nearestGo sq m (Bvh.build m) p ((Bvh.build m).nodes.length + 1) [0]
        ⟨maxDist * maxDist, -1, 0, ⟨0, 1, 0⟩⟩ =
          ⟨maxDist * maxDist, -1, 0, ⟨0, 1, 0⟩⟩ ∨
      ∃ t < m.triCount, (nearestGo sq m (Bvh.build m) p
          ((Bvh.build m).nodes.length + 1) [0]
          ⟨maxDist * maxDist, -1, 0, ⟨0, 1, 0⟩⟩).tri = Int.ofNat t ∧
        (nearestGo sq m (Bvh.build m) p ((Bvh.build m).nodes.length + 1) [0]
          ⟨maxDist * maxDist, -1, 0, ⟨0, 1, 0⟩⟩).cp = triClosest m p t ∧
        (nearestGo sq m (Bvh.build m) p ((Bvh.build m).nodes.length + 1) [0]
          ⟨maxDist * maxDist, -1, 0, ⟨0, 1, 0⟩⟩).dSq = triDistSq m p t ∧
        (nearestGo sq m (Bvh.build m) p ((Bvh.build m).nodes.length + 1) [0]
          ⟨maxDist * maxDist, -1, 0, ⟨0, 1, 0⟩⟩).dSq < maxDist * maxDist) := by
  obtain ⟨hlen, hperm, size, hsize, hsub⟩ := build_spec m htri
  obtain ⟨g1, g2, g3⟩ := nearestGo_spec sq m (Bvh.build m) p
    ((Bvh.build m).nodes.length + 1) [0] [(0, m.triCount, size)]
    ⟨maxDist * maxDist, -1, 0, ⟨0, 1, 0⟩⟩
    (List.Forall₂.cons hsub List.Forall₂.nil)
    (by simp only [List.map_cons, List.map_nil, List.sum_cons, List.sum_nil]
        omega)
  have hslice : ((Bvh.build m).triIndices.drop 0).take m.triCount =
      (Bvh.build m).triIndices := slice_all _ _ hlen
  have hmem : ∀ t, t < m.triCount → t ∈ (Bvh.build m).triIndices := by
    intro t ht
    rw [hperm.mem_iff]
    exact List.mem_range.2 ht
  refine ⟨g1, ?_, ?_⟩
  · intro t ht
    refine g2 (0, m.triCount, size) (List.mem_singleton.2 rfl) t ?_
    show t ∈ ((Bvh.build m).triIndices.drop 0).take m.triCount
    rw [hslice]
    exact hmem t ht
  · rcases g3 with heq | ⟨s, hs, t, ht, hh⟩
    · exact Or.inl heq
    · have hs' : s = (0, m.triCount, size) := List.mem_singleton.1 hs
      subst hs'
      have ht' : t ∈ (Bvh.build m).triIndices := by
        have := ht
        rw [show ((0:ℕ), m.triCount, size).1 = 0 from rfl,
          show ((0:ℕ), m.triCount, size).2.1 = m.triCount from rfl] at this
        rwa [hslice] at this
      have htlt : t < m.triCount := by
        rw [hperm.mem_iff, List.mem_range] at ht'
        exact ht'
      exact Or.inr ⟨t, htlt, hh⟩

/-- C1: For every mesh with at least one triangle (and nonempty vertex
array) on which `Bvh::build` has been run, and every query point `p`
and `maxDist > 0`, `Bvh::nearestTriangle` agrees with the O(n)
brute-force scan: when it returns a triangle, that triangle realises
the minimum closest-point distance over all triangles, strictly within
`maxDist` (squared comparison, as the code performs it), together with
that triangle's computed closest point; it returns `none` exactly when
no triangle is strictly within `maxDist`, and its found/not-found
verdict and realised squared distance coincide with the brute-force
scan's. -/
theorem c1_nearestTriangle_agrees_bruteforce (sq : ℚ → ℚ) (m : Mesh)
    (p : Vec3) (maxDist : ℚ) (htri : 0 < m.triCount)
    (hpos : m.positions ≠ []) (hmax : 0 < maxDist) :
    (∀ t cp nr,
      Bvh.nearestTriangle sq (Bvh.build m) m p maxDist = some (t, cp, nr) →
        t < m.triCount ∧ cp = triClosest m p t ∧
        distSq p cp < maxDist * maxDist ∧
        ∀ t' < m.triCount, triDistSq m p t ≤ triDistSq m p t') ∧
    (Bvh.nearestTriangle sq (Bvh.build m) m p maxDist = none →
      ∀ t' < m.triCount, maxDist * maxDist ≤ triDistSq m p t') ∧
    ((Bvh.nearestTriangle sq (Bvh.build m) m p maxDist).isSome =
      (bruteForceNearest sq m p maxDist).isSome) ∧
    (∀ t cp nr t' cp' nr',
      Bvh.nearestTriangle sq (Bvh.build m) m p maxDist = some (t, cp, nr) →
      bruteForceNearest sq m p maxDist = some (t', cp', nr') →
      triDistSq m p t = triDistSq m p t' ∧ distSq p cp = distSq p cp') := by
  have hindne : m.indices ≠ [] := by
    intro h0
    rw [Mesh.triCount, h0] at htri
    simp at htri
  have hnodesne : (Bvh.build m).nodes ≠ [] := by
    obtain ⟨-, -, size, hsize, hsub⟩ := build_spec m htri
    intro h0
    rw [h0] at hsize
    have := Subtree.size_pos hsub
    simp at hsize
    omega
  obtain ⟨g1, g2, g3⟩ := bvhGo_char sq m p maxDist htri
  obtain ⟨b1, b2, b3⟩ := bruteForce_char sq m p maxDist
  obtain ⟨gA, gB⟩ := nearRes_char m p maxDist _ g2 g3
  obtain ⟨bA, bB⟩ := nearRes_char m p maxDist _ b2 b3
  have heqfn : Bvh.nearestTriangle sq (Bvh.build m) m p maxDist =
      (if (nearestGo sq m (Bvh.build m) p ((Bvh.build m).nodes.length + 1) [0]
            ⟨maxDist * maxDist, -1, 0, ⟨0, 1, 0⟩⟩).tri < 0 then none
       else some ((nearestGo sq m (Bvh.build m) p
            ((Bvh.build m).nodes.length + 1) [0]
            ⟨maxDist * maxDist, -1, 0, ⟨0, 1, 0⟩⟩).tri.toNat,
          (nearestGo sq m (Bvh.build m) p ((Bvh.build m).nodes.length + 1) [0]
            ⟨maxDist * maxDist, -1, 0, ⟨0, 1, 0⟩⟩).cp,
          (nearestGo sq m (Bvh.build m) p ((Bvh.build m).nodes.length + 1) [0]
            ⟨maxDist * maxDist, -1, 0, ⟨0, 1, 0⟩⟩).nrm)) := by
    rw [Bvh.nearestTriangle, if_neg hnodesne,
      if_neg (by
        rintro (h | h)
        · exact hpos h
        · exact hindne h)]
  have heqbr : bruteForceNearest sq m p maxDist =
      (if (scanRange sq m p (List.range m.triCount)
            ⟨maxDist * maxDist, -1, 0, ⟨0, 1, 0⟩⟩).tri < 0 then none
       else some ((scanRange sq m p (List.range m.triCount)
            ⟨maxDist * maxDist, -1, 0, ⟨0, 1, 0⟩⟩).tri.toNat,
          (scanRange sq m p (List.range m.triCount)
            ⟨maxDist * maxDist, -1, 0, ⟨0, 1, 0⟩⟩).cp,
          (scanRange sq m p (List.range m.triCount)
            ⟨maxDist * maxDist, -1, 0, ⟨0, 1, 0⟩⟩).nrm)) := rfl
  have hiff : (nearestGo sq m (Bvh.build m) p ((Bvh.build m).nodes.length + 1)
      [0] ⟨maxDist * maxDist, -1, 0, ⟨0, 1, 0⟩⟩).tri < 0 ↔
      (scanRange sq m p (List.range m.triCount)
        ⟨maxDist * maxDist, -1, 0, ⟨0, 1, 0⟩⟩).tri < 0 := by
    constructor
    · intro h
      by_contra hbr
      obtain ⟨hlt, -, hdist, -, -⟩ := bB hbr
      exact absurd (gA h _ hlt) (not_le.2 hdist)
    · intro h
      by_contra hg
      obtain ⟨hlt, -, hdist, -, -⟩ := gB hg
      exact absurd (bA h _ hlt) (not_le.2 hdist)
  refine ⟨?_, ?_, ?_, ?_⟩
  · intro t cp nr hsome
    rw [heqfn] at hsome
    split_ifs at hsome with hneg
    simp only [Option.some.injEq, Prod.mk.injEq] at hsome
    obtain ⟨h1, h2, h3⟩ := hsome
    subst h1
    subst h2
    obtain ⟨hlt, hcp, hdist, hmin, hd⟩ := gB hneg
    exact ⟨hlt, hcp, by rw [hcp]; exact hdist, hmin⟩
  · intro hnone
    rw [heqfn] at hnone
    split_ifs at hnone with hneg
    exact gA hneg
  · rw [heqfn, heqbr]
    by_cases h : (nearestGo sq m (Bvh.build m) p
        ((Bvh.build m).nodes.length + 1) [0]
        ⟨maxDist * maxDist, -1, 0, ⟨0, 1, 0⟩⟩).tri < 0
    · rw [if_pos h, if_pos (hiff.1 h)]
    · rw [if_neg h, if_neg (fun hc => h (hiff.2 hc))]
      rfl
  · intro t cp nr t' cp' nr' hsome hsome'
    rw [heqfn] at hsome
    rw [heqbr] at hsome'
    split_ifs at hsome with hneg
    split_ifs at hsome' with hneg'
    simp only [Option.some.injEq, Prod.mk.injEq] at hsome hsome'
    obtain ⟨h1, h2, h3⟩ := hsome
    obtain ⟨h1', h2', h3'⟩ := hsome'
    subst h1
    subst h2
    subst h1'
    subst h2'
    obtain ⟨hlt, hcp, hdist, hmin, hd⟩ := gB hneg
    obtain ⟨hlt', hcp', hdist', hmin', hd'⟩ := bB hneg'
    have heqd := le_antisymm (hmin _ hlt') (hmin' _ hlt)
    refine ⟨heqd, ?_⟩
    rw [hcp, hcp']
    exact heqd

/-! ## Scheduler claims -/

theorem simulateLoop_spec {α : Type} (stepFn : ℚ → α → α) (fixedDt : ℚ) :
    ∀ (n : ℕ) (acc : ℚ) (s : α) (dts : List ℚ),
      (simulateLoop stepFn fixedDt n acc s dts).2.2.length ≤ dts.length + n ∧
      (∀ d ∈ (simulateLoop stepFn fixedDt n acc s dts).2.2,
        d ∈ dts ∨ d = fixedDt) ∧
      (simulateLoop stepFn fixedDt n acc s dts).1 +
          ((simulateLoop stepFn fixedDt n acc s dts).2.2.length : ℚ) * fixedDt =
        acc + (dts.length : ℚ) * fixedDt := by
  intro n
  induction n with
  | zero =>
      intro acc s dts
      exact ⟨le_rfl, fun d hd => Or.inl hd, rfl⟩
  | succ n ih =>
      intro acc s dts
      show _ ∧ _ ∧ _
      simp only [simulateLoop]
      split_ifs with h
      · obtain ⟨ih1, ih2, ih3⟩ := ih (acc - fixedDt) (stepFn fixedDt s)
          (dts ++ [fixedDt])
        refine ⟨?_, ?_, ?_⟩
        · calc _ ≤ (dts ++ [fixedDt]).length + n := ih1
            _ = dts.length + (n + 1) := by simp [List.length_append]; omega
        · intro d hd
          rcases ih2 d hd with hmem | heq
          · rcases List.mem_append.1 hmem with h1 | h1
            · exact Or.inl h1
            · exact Or.inr (List.mem_singleton.1 h1)
          · exact Or.inr heq
        · rw [ih3]
          simp only [List.length_append, List.length_cons, List.length_nil]
          push_cast
          ring
      · exact ⟨by show dts.length ≤ dts.length + (n + 1); omega,
          fun d hd => Or.inl hd, rfl⟩

/-- After the loop the accumulator is below `fixedDt`, provided it
started below `(n+1) * fixedDt` — with `n = 8` substeps this covers any
clamped frame time, so the scheduler's accumulator invariant
`acc < 1/120` holds at every frame boundary. -/
theorem simulateLoop_acc_lt {α : Type} (stepFn : ℚ → α → α) (fixedDt : ℚ)
    (hf : 0 < fixedDt) :
    ∀ (n : ℕ) (acc : ℚ) (s : α) (dts : List ℚ),
      acc < (n + 1 : ℚ) * fixedDt →
      (simulateLoop stepFn fixedDt n acc s dts).1 < fixedDt := by
  intro n
  induction n with
  | zero =>
      intro acc s dts hacc
      show acc < fixedDt
      have h1 : ((0:ℕ) : ℚ) + 1 = 1 := by norm_num
      rw [h1, one_mul] at hacc
      exact hacc
  | succ n ih =>
      intro acc s dts hacc
      show (simulateLoop stepFn fixedDt (n + 1) acc s dts).1 < fixedDt
      simp only [simulateLoop]
      split_ifs with h
      · refine ih (acc - fixedDt) (stepFn fixedDt s) (dts ++ [fixedDt]) ?_
        push_cast at hacc ⊢
        linarith
      · linarith [not_le.1 h]

/-- The scheduler's accumulator invariant is preserved:
`0 ≤ acc < 1/120` before a frame implies the same after. -/
theorem simulate_false {α : Type} (stepFn : ℚ → α → α) (acc dt : ℚ) (s : α) :
    simulate stepFn false acc dt s = (acc, s, []) := rfl

theorem simulate_true {α : Type} (stepFn : ℚ → α → α) (acc dt : ℚ) (s : α) :
    simulate stepFn true acc dt s =
      simulateLoop stepFn (1 / 120) 8 (acc + clampQ dt 0 (1 / 15)) s [] := rfl

theorem clampQ_nonneg_le (dt : ℚ) :
    0 ≤ clampQ dt 0 (1 / 15) ∧ clampQ dt 0 (1 / 15) ≤ 1 / 15 := by
  refine ⟨le_max_left _ _, ?_⟩
  unfold clampQ
  rcases le_or_lt dt (1 / 15) with h | h
  · rw [min_eq_left h]
    rcases le_or_lt 0 dt with h2 | h2
    · rw [max_eq_right h2]; exact h
    · rw [max_eq_left h2.le]; norm_num
  · rw [min_eq_right h.le]
    norm_num

theorem simulate_acc_invariant {α : Type} (stepFn : ℚ → α → α)
    (enable : Bool) (acc dt : ℚ) (s : α)
    (h0 : 0 ≤ acc) (h1 : acc < 1 / 120) :
    0 ≤ (simulate stepFn enable acc dt s).1 ∧
    (simulate stepFn enable acc dt s).1 < 1 / 120 := by
  obtain ⟨hclamp1, hclamp2⟩ := clampQ_nonneg_le dt
  cases enable with
  | false => rw [simulate_false]; exact ⟨h0, h1⟩
  | true =>
      rw [simulate_true]
      constructor
      · have hgen : ∀ (n : ℕ) (a : ℚ) (st : α) (dts : List ℚ), 0 ≤ a →
            0 ≤ (simulateLoop stepFn (1 / 120) n a st dts).1 := by
          intro n
          induction n with
          | zero => intro a st dts ha; exact ha
          | succ n ih =>
              intro a st dts ha
              show 0 ≤ (simulateLoop stepFn (1 / 120) (n + 1) a st dts).1
              simp only [simulateLoop]
              split_ifs with h
              · exact ih _ _ _ (by linarith)
              · exact ha
        exact hgen 8 _ s [] (by linarith)
      · refine simulateLoop_acc_lt stepFn (1 / 120) (by norm_num) 8 _ s [] ?_
        push_cast
        linarith

/-- C3: with `dt ≤ 0` (and the scheduler's accumulator invariant, which
`simulate_acc_invariant` shows holds in every reachable state), a
`Scene::simulate` call runs zero solver substeps and leaves the scene
state — in particular every curve's `points`/`prevPoints` — bit-for-bit
unchanged. -/
theorem c3_simulate_noop_on_nonpositive_dt {α : Type} (stepFn : ℚ → α → α)
    (enableSimulation : Bool) (acc dt : ℚ) (s : α)
    (hacc : acc < 1 / 120) (hdt : dt ≤ 0) :
    (simulate stepFn enableSimulation acc dt s).2.1 = s ∧
    (simulate stepFn enableSimulation acc dt s).2.2 = [] := by
  cases enableSimulation with
  | false => rw [simulate_false]; exact ⟨rfl, rfl⟩
  | true =>
      rw [simulate_true]
      have hclamp : clampQ dt 0 (1 / 15) = 0 := by
        unfold clampQ
        rw [min_eq_left (by linarith : dt ≤ 1 / 15), max_eq_left hdt]
      rw [hclamp, add_zero]
      have h8 : ¬((1 : ℚ) / 120 ≤ acc) := by linarith
      show ((simulateLoop stepFn (1 / 120) 8 acc s []).2.1 = s) ∧
        ((simulateLoop stepFn (1 / 120) 8 acc s []).2.2 = [])
      simp only [show (8 : ℕ) = 7 + 1 from rfl, simulateLoop, if_neg h8]
      refine ⟨?_, ?_⟩ <;> first | rfl | trivial

/-- C3 witness. -/
theorem c3_simulate_noop_on_nonpositive_dt_witness :
    (simulate (fun _ (s : ℕ) => s + 1) true 0 (-1) 5).2.1 = 5 ∧
    (simulate (fun _ (s : ℕ) => s + 1) true 0 (-1) 5).2.2 = [] :=
  c3_simulate_noop_on_nonpositive_dt (fun _ s => s + 1) true 0 (-1) 5
    (by norm_num) (by norm_num)

/-- C8: in every `Scene::simulate` call, at most 8 solver substeps run,
every substep receives exactly the fixed timestep `1/120` s, and the
frame time enters the accumulator clamped to `[0, 1/15]` (the new
accumulator equals the old one plus the clamped dt minus the consumed
substeps). -/
theorem c8_simulate_substep_bounds {α : Type} (stepFn : ℚ → α → α)
    (enable : Bool) (acc dt : ℚ) (s : α) :
    (simulate stepFn enable acc dt s).2.2.length ≤ 8 ∧
    (∀ d ∈ (simulate stepFn enable acc dt s).2.2, d = 1 / 120) ∧
    (0 ≤ clampQ dt 0 (1 / 15) ∧ clampQ dt 0 (1 / 15) ≤ 1 / 15 ∧
      clampQ dt 0 (1 / 15) ≤ dt ∨ dt < 0) ∧
    (enable = true →
      (simulate stepFn enable acc dt s).1 +
          ((simulate stepFn enable acc dt s).2.2.length : ℚ) * (1 / 120) =
        acc + clampQ dt 0 (1 / 15)) := by
  obtain ⟨hclamp1, hclamp2⟩ := clampQ_nonneg_le dt
  have hclamp3 : 0 ≤ dt → clampQ dt 0 (1 / 15) ≤ dt := by
    intro h
    unfold clampQ
    rcases le_or_lt dt (1 / 15) with h1 | h1
    · rw [min_eq_left h1, max_eq_right h]
    · rw [min_eq_right h1.le]
      rw [max_eq_right (by norm_num : (0:ℚ) ≤ 1 / 15)]
      linarith
  have hside : 0 ≤ clampQ dt 0 (1 / 15) ∧ clampQ dt 0 (1 / 15) ≤ 1 / 15 ∧
      clampQ dt 0 (1 / 15) ≤ dt ∨ dt < 0 := by
    rcases le_or_lt 0 dt with h | h
    · exact Or.inl ⟨hclamp1, hclamp2, hclamp3 h⟩
    · exact Or.inr h
  cases enable with
  | false =>
      rw [simulate_false]
      exact ⟨by simp, by simp, hside, fun hcontra => by cases hcontra⟩
  | true =>
      rw [simulate_true]
      obtain ⟨l1, l2, l3⟩ := simulateLoop_spec stepFn (1 / 120) 8
        (acc + clampQ dt 0 (1 / 15)) s []
      refine ⟨by simpa using l1, ?_, hside, fun _ => by simpa using l3⟩
      intro d hd
      rcases l2 d hd with hmem | heq
      · cases hmem
      · exact heq

/-- C8 witness. -/
theorem c8_simulate_substep_bounds_witness :
    (simulate (fun _ (s : ℕ) => s + 1) true 0 1 0).2.2.length ≤ 8 ∧
    ∀ d ∈ (simulate (fun _ (s : ℕ) => s + 1) true 0 1 0).2.2, d = 1 / 120 :=
  ⟨(c8_simulate_substep_bounds (fun _ s => s + 1) true 0 1 0).1,
   (c8_simulate_substep_bounds (fun _ s => s + 1) true 0 1 0).2.1⟩

/-! ## HairGuideSet claims -/

open HairGuideSet in
/-- C9: `moveControlPoint` with a valid curve index, a non-root vertex
index and a finite position sets that vertex's `points` and
`prevPoints` entries to `worldPos` (zero local velocity) and changes
nothing else; with an out-of-range curve index, `vertIdx ≤ 0`, an
out-of-range vertex index, or a non-finite position it leaves the set
unchanged. -/
theorem c9_moveControlPoint_spec (hg : HairGuideSet) (ci vi : Int)
    (w : Vec3) (fin : Bool) :
    (∀ c, 0 ≤ ci → hg.curves.get? ci.toNat = some c →
      1 ≤ vi → vi.toNat < c.points.length → fin = true →
      (moveControlPoint hg ci vi w fin).curves.get? ci.toNat =
        some { c with
          points := c.points.set vi.toNat w
          prevPoints := c.prevPoints.set vi.toNat w } ∧
      (∀ j, j ≠ ci.toNat →
        (moveControlPoint hg ci vi w fin).curves.get? j = hg.curves.get? j) ∧
      (moveControlPoint hg ci vi w fin).selected = hg.selected ∧
      (moveControlPoint hg ci vi w fin).activeCurve = hg.activeCurve) ∧
    ((ci < 0 ∨ hg.curves.length ≤ ci.toNat ∨ vi ≤ 0 ∨
        (hg.curves.getD ci.toNat {}).points.length ≤ vi.toNat ∨ fin = false) →
      moveControlPoint hg ci vi w fin = hg) := by
  constructor
  · intro c hci hget hvi hvlen hfin
    have hlt : ci.toNat < hg.curves.length := by
      by_contra hc
      push_neg at hc
      rw [List.get?_eq_none.2 hc] at hget
      cases hget
    have hgetD : hg.curves.getD ci.toNat {} = c := by
      simp [List.getD_eq_getElem?_getD, ← List.get?_eq_getElem?, hget]
    unfold moveControlPoint
    rw [if_neg (by push_neg; exact ⟨not_lt.1 (by omega), by omega⟩)]
    rw [hgetD]
    rw [if_neg (by push_neg; exact ⟨by omega, hvlen⟩)]
    rw [hfin]
    rw [if_neg (by simp)]
    refine ⟨?_, ?_, rfl, rfl⟩
    · rw [List.get?_set_eq_of_lt _ hlt]
    · intro j hj
      exact List.get?_set_ne _ _ (fun h => hj h.symm)
  · intro hbad
    simp only [moveControlPoint]
    split_ifs with h1 h2 h3 <;> try rfl
    exfalso
    rcases hbad with h | h | h | h | h
    · exact h1 (Or.inl h)
    · exact h1 (Or.inr h)
    · exact h2 (Or.inl h)
    · exact h2 (Or.inr h)
    · rw [h] at h3
      exact Bool.false_ne_true h3

/-- C9 witness: move vertex 1 of a 2-point curve. -/
theorem c9_moveControlPoint_spec_witness :
    (HairGuideSet.moveControlPoint
        ⟨[⟨{}, [⟨0,0,0⟩, ⟨1,0,0⟩], [⟨0,0,0⟩, ⟨1,0,0⟩], 1⟩], [false], -1⟩
        0 1 ⟨5,5,5⟩ true).curves.get? 0 =
      some ⟨{}, [⟨0,0,0⟩, ⟨5,5,5⟩], [⟨0,0,0⟩, ⟨5,5,5⟩], 1⟩ := by
  have h := (c9_moveControlPoint_spec
    ⟨[⟨{}, [⟨0,0,0⟩, ⟨1,0,0⟩], [⟨0,0,0⟩, ⟨1,0,0⟩], 1⟩], [false], -1⟩
    0 1 ⟨5,5,5⟩ true).1 ⟨{}, [⟨0,0,0⟩, ⟨1,0,0⟩], [⟨0,0,0⟩, ⟨1,0,0⟩], 1⟩
    (by norm_num) (by rfl) (by norm_num) (by norm_num) rfl
  exact h.1

open HairGuideSet in
/-- C10: every public `HairGuideSet` operation preserves the invariant
that the selection array and curve array have equal length, and
`isCurveSelected` returns `false` for any index `≥ curveCount` instead
of reading out of bounds. -/
theorem c10_selection_invariant :
    (∀ hg : HairGuideSet, SelInv (clear hg)) ∧
    (∀ (hg : HairGuideSet) sq m ti bary hp hn st v, SelInv hg →
      SelInv (addCurveOnMesh hg sq m ti bary hp hn st v).1) ∧
    (∀ (hg : HairGuideSet) i, SelInv hg → SelInv (removeCurve hg i)) ∧
    (∀ (hg : HairGuideSet) idxs, SelInv hg → SelInv (removeCurves hg idxs)) ∧
    (∀ (hg : HairGuideSet) i additive, SelInv hg →
      SelInv (selectCurve hg i additive)) ∧
    (∀ (hg : HairGuideSet) i, SelInv hg → SelInv (toggleCurveSelected hg i)) ∧
    (∀ hg : HairGuideSet, SelInv hg → SelInv (deselectAll hg)) ∧
    (∀ (hg : HairGuideSet) idx, SelInv hg → curveCount hg ≤ idx →
      isCurveSelected hg idx = false) := by
  have hremove : ∀ (hg : HairGuideSet) i, SelInv hg → SelInv (removeCurve hg i) := by
    intro hg i hinv
    unfold SelInv at *
    simp only [removeCurve]
    split_ifs with h <;> (try dsimp only) <;>
      first
        | exact hinv
        | (simp only [List.length_eraseIdx]; split_ifs <;> omega)
  refine ⟨?_, ?_, hremove, ?_, ?_, ?_, ?_, ?_⟩
  · intro hg; rfl
  · intro hg sq m ti bary hp hn st v hinv
    unfold SelInv at *
    simp only [addCurveOnMesh]
    split_ifs <;> (try dsimp only) <;>
      first
        | exact hinv
        | (simp only [List.length_append, List.length_cons, List.length_nil]
           omega)
  · intro hg idxs hinv
    induction idxs generalizing hg with
    | nil => exact hinv
    | cons i idxs ih => exact ih _ (hremove hg i hinv)
  · intro hg i additive hinv
    unfold SelInv at *
    simp only [selectCurve, deselectAll]
    split_ifs <;> (try dsimp only) <;>
      first
        | exact hinv
        | (simp only [List.length_set, List.length_map]; exact hinv)
  · intro hg i hinv
    unfold SelInv at *
    simp only [toggleCurveSelected]
    split_ifs <;> (try dsimp only) <;>
      first
        | exact hinv
        | (simp only [List.length_set]; exact hinv)
  · intro hg hinv
    unfold SelInv deselectAll at *
    simpa using hinv
  · intro hg idx hinv hge
    unfold isCurveSelected
    rw [if_pos]
    unfold SelInv at hinv
    unfold curveCount at hge
    omega

/-- C10 witness. -/
theorem c10_selection_invariant_witness :
    SelInv (HairGuideSet.removeCurve ⟨[{}], [true], 0⟩ 0) ∧
    HairGuideSet.isCurveSelected ⟨[{}], [true], 0⟩ 3 = false :=
  ⟨c10_selection_invariant.2.2.1 ⟨[{}], [true], 0⟩ 0 rfl,
   c10_selection_invariant.2.2.2.2.2.2.2 ⟨[{}], [true], 0⟩ 3 rfl (by decide)⟩

open HairGuideSet in
/-- C4 (amended): a successful `addCurveOnMesh` with a valid binding
(in-range triangle, in-range vertex indices) returns the new curve's
index, appends exactly one curve whose `points` and `prevPoints` are
identical (exactly zero initial velocity) of length equal to the
*clamped* step count `clamp(defaultSteps, 2, 256)` — not the raw
requested `defaultSteps` — and whose `points[0] = prevPoints[0]` is the
bound surface point, the barycentric combination of the bound
triangle's vertices by the stored (renormalized) barycentrics. -/
theorem c4_addCurveOnMesh_init (hg : HairGuideSet) (sq : ℚ → ℚ) (m : Mesh)
    (ti : Int) (bary hitPos hitNormal : Vec3) (st : GuideSettings)
    (h0 : 0 ≤ ti) (h1 : ti.toNat < m.triCount)
    (hi0 : m.idx (ti.toNat * 3) < m.positions.length)
    (hi1 : m.idx (ti.toNat * 3 + 1) < m.positions.length)
    (hi2 : m.idx (ti.toNat * 3 + 2) < m.positions.length) :
    (addCurveOnMesh hg sq m ti bary hitPos hitNormal st true).2 =
      Int.ofNat hg.curves.length ∧
    (addCurveOnMesh hg sq m ti bary hitPos hitNormal st true).1.curves.length
      = hg.curves.length + 1 ∧
    (((addCurveOnMesh hg sq m ti bary hitPos hitNormal st true).1.curves.getD
        hg.curves.length {}).points.length =
      (max 2 (min st.defaultSteps 256)).toNat ∧
    ((addCurveOnMesh hg sq m ti bary hitPos hitNormal st true).1.curves.getD
        hg.curves.length {}).prevPoints =
      ((addCurveOnMesh hg sq m ti bary hitPos hitNormal st true).1.curves.getD
        hg.curves.length {}).points ∧
    ((addCurveOnMesh hg sq m ti bary hitPos hitNormal st true).1.curves.getD
        hg.curves.length {}).points.get? 0 =
      some ((rootBindingFor m ti bary).bary.x • m.pos (m.idx (ti.toNat * 3)) +
        (rootBindingFor m ti bary).bary.y • m.pos (m.idx (ti.toNat * 3 + 1)) +
        (rootBindingFor m ti bary).bary.z • m.pos (m.idx (ti.toNat * 3 + 2)))) := by
  have hr : addCurveOnMesh hg sq m ti bary hitPos hitNormal st true =
      ({ hg with
          curves := hg.curves ++ [newCurve sq m ti bary hitPos hitNormal st]
          selected := hg.selected ++ [false] },
        Int.ofNat hg.curves.length) := by
    rw [addCurveOnMesh, if_neg (by simp)]
  have hget : (hg.curves ++ [newCurve sq m ti bary hitPos hitNormal st]).get?
      hg.curves.length = some (newCurve sq m ti bary hitPos hitNormal st) :=
    List.get?_concat_length _ _
  have hgetD : (addCurveOnMesh hg sq m ti bary hitPos hitNormal st
      true).1.curves.getD hg.curves.length {} =
      newCurve sq m ti bary hitPos hitNormal st := by
    rw [hr]
    simp [List.getD_eq_getElem?_getD, ← List.get?_eq_getElem?, hget]
  have hsteps2 : 2 ≤ newCurveSteps st := by
    rw [newCurveSteps]; omega
  have hroot : (0 ≤ ti ∧ ti.toNat < m.indices.length / 3) := ⟨h0, h1⟩
  have hnew : newCurve sq m ti bary hitPos hitNormal st =
      ⟨rootBindingFor m ti bary,
        (List.range (newCurveSteps st)).map
          (fun (i : ℕ) => ((rootBindingFor m ti bary).bary.x • m.pos (m.idx (ti.toNat * 3)) +
              (rootBindingFor m ti bary).bary.y • m.pos (m.idx (ti.toNat * 3 + 1)) +
              (rootBindingFor m ti bary).bary.z • m.pos (m.idx (ti.toNat * 3 + 2))) +
            ((max (1 / 1000) st.defaultLength *
              ((i : ℚ) / ((newCurveSteps st : ℚ) - 1)))) •
              (if sq (dot hitNormal hitNormal) < 1 / 1000000 then (⟨0, 1, 0⟩ : Vec3)
                else vdiv hitNormal (sq (dot hitNormal hitNormal)))),
        (List.range (newCurveSteps st)).map
          (fun (i : ℕ) => ((rootBindingFor m ti bary).bary.x • m.pos (m.idx (ti.toNat * 3)) +
              (rootBindingFor m ti bary).bary.y • m.pos (m.idx (ti.toNat * 3 + 1)) +
              (rootBindingFor m ti bary).bary.z • m.pos (m.idx (ti.toNat * 3 + 2))) +
            ((max (1 / 1000) st.defaultLength *
              ((i : ℚ) / ((newCurveSteps st : ℚ) - 1)))) •
              (if sq (dot hitNormal hitNormal) < 1 / 1000000 then (⟨0, 1, 0⟩ : Vec3)
                else vdiv hitNormal (sq (dot hitNormal hitNormal)))),
        max (1 / 1000) st.defaultLength / ((newCurveSteps st : ℚ) - 1)⟩ := by
    rw [newCurve]
    rw [if_pos hroot, if_pos ⟨hi0, hi1, hi2⟩]
  refine ⟨by rw [hr], by rw [hr]; simp, ?_, ?_, ?_⟩
  · rw [hgetD, hnew]
    show (List.map _ (List.range (newCurveSteps st))).length = _
    rw [List.length_map, List.length_range]
    rfl
  · rw [hgetD, hnew]
  · rw [hgetD, hnew]
    have hr0 : (List.range (newCurveSteps st)).get? 0 = some 0 :=
      List.get?_range (by omega)
    show (List.map _ (List.range (newCurveSteps st))).get? 0 = _
    rw [List.get?_map, hr0, Option.map_some']
    congr 1
    have hco : (max (1 / 1000 : ℚ) st.defaultLength *
        (((0 : ℕ) : ℚ) / ((newCurveSteps st : ℚ) - 1))) = 0 := by
      norm_num
    rw [hco]
    have hz : ∀ (v w : Vec3), v + (0 : ℚ) • w = v := by
      intro v w; cases v; cases w; simp
    rw [hz]

open HairGuideSet in
/-- C4 counterexample: with `defaultSteps = 1` requested, the created
curve has 2 points, not 1 — `points.size()` equals the clamped step
count, not the requested one. -/
theorem c4_addCurveOnMesh_steps_cex :
    (addCurveOnMesh ⟨[], [], -1⟩ (fun _ => 1)
        ⟨[⟨0,0,0⟩, ⟨1,0,0⟩, ⟨0,1,0⟩], [0,1,2]⟩ 0
        ⟨1,0,0⟩ ⟨0,0,0⟩ ⟨0,0,1⟩ { defaultSteps := 1 } true).2 = 0 ∧
    ((addCurveOnMesh ⟨[], [], -1⟩ (fun _ => 1)
        ⟨[⟨0,0,0⟩, ⟨1,0,0⟩, ⟨0,1,0⟩], [0,1,2]⟩ 0
        ⟨1,0,0⟩ ⟨0,0,0⟩ ⟨0,0,1⟩ { defaultSteps := 1 } true).1.curves.getD 0
      {}).points.length = 2 := by
  constructor
  · rfl
  · rfl

open HairGuideSet in
/-- C4 witness: a concrete successful creation on a one-triangle mesh. -/
theorem c4_addCurveOnMesh_init_witness :
    ((addCurveOnMesh ⟨[], [], -1⟩ (fun _ => 1)
        ⟨[⟨0,0,0⟩, ⟨2,0,0⟩, ⟨0,2,0⟩], [0,1,2]⟩ 0
        ⟨1/2, 1/4, 1/4⟩ ⟨5,5,5⟩ ⟨0,0,1⟩ {} true).1.curves.getD 0
      {}).points.get? 0 =
      some ((rootBindingFor ⟨[⟨0,0,0⟩, ⟨2,0,0⟩, ⟨0,2,0⟩], [0,1,2]⟩ 0
          ⟨1/2, 1/4, 1/4⟩).bary.x •
            Mesh.pos ⟨[⟨0,0,0⟩, ⟨2,0,0⟩, ⟨0,2,0⟩], [0,1,2]⟩
              (Mesh.idx ⟨[⟨0,0,0⟩, ⟨2,0,0⟩, ⟨0,2,0⟩], [0,1,2]⟩ ((0:Int).toNat * 3)) +
        (rootBindingFor ⟨[⟨0,0,0⟩, ⟨2,0,0⟩, ⟨0,2,0⟩], [0,1,2]⟩ 0
          ⟨1/2, 1/4, 1/4⟩).bary.y •
            Mesh.pos ⟨[⟨0,0,0⟩, ⟨2,0,0⟩, ⟨0,2,0⟩], [0,1,2]⟩
              (Mesh.idx ⟨[⟨0,0,0⟩, ⟨2,0,0⟩, ⟨0,2,0⟩], [0,1,2]⟩ ((0:Int).toNat * 3 + 1)) +
        (rootBindingFor ⟨[⟨0,0,0⟩, ⟨2,0,0⟩, ⟨0,2,0⟩], [0,1,2]⟩ 0
          ⟨1/2, 1/4, 1/4⟩).bary.z •
            Mesh.pos ⟨[⟨0,0,0⟩, ⟨2,0,0⟩, ⟨0,2,0⟩], [0,1,2]⟩
              (Mesh.idx ⟨[⟨0,0,0⟩, ⟨2,0,0⟩, ⟨0,2,0⟩], [0,1,2]⟩ ((0:Int).toNat * 3 + 2))) :=
  (c4_addCurveOnMesh_init ⟨[], [], -1⟩ (fun _ => 1)
    ⟨[⟨0,0,0⟩, ⟨2,0,0⟩, ⟨0,2,0⟩], [0,1,2]⟩ 0 ⟨1/2, 1/4, 1/4⟩ ⟨5,5,5⟩ ⟨0,0,1⟩ {}
    (by decide) (by decide) (by decide) (by decide) (by decide)).2.2.2.2

open HairGuideSet in
/-- C6 (amended): on a *nonempty* mesh, a curve whose stored root
triangle index is `≥ 0` but out of range is unbound
(`root.triIndex := -1`) by `updatePinnedRootsFromMesh`, with its
`points`, `prevPoints` and barycentrics untouched; on an empty mesh
the function returns early and does not unbind (the unamended claim is
refuted by `c6_updatePinnedRoots_cex`). -/
theorem c6_updatePinnedRoots_unbinds (hg : HairGuideSet) (m : Mesh)
    (hpos : m.positions ≠ []) (hind : m.indices ≠ [])
    (i : ℕ) (c : HairCurve) (hget : hg.curves.get? i = some c)
    (h0 : 0 ≤ c.root.triIndex)
    (hoor : m.triCount ≤ c.root.triIndex.toNat) :
    (updatePinnedRootsFromMesh hg m).curves.get? i =
      some { c with root := { c.root with triIndex := -1 } } := by
  rw [updatePinnedRootsFromMesh,
    if_neg (by rintro (h | h); exacts [hpos h, hind h])]
  show (hg.curves.map (updateRoot m)).get? i = _
  rw [List.get?_map, hget, Option.map_some']
  have hoor' : m.indices.length / 3 ≤ c.root.triIndex.toNat := hoor
  have hres : updateRoot m c = { c with root := { c.root with triIndex := -1 } } := by
    simp only [updateRoot]
    rw [if_neg (by omega), if_pos hoor']
  rw [hres]

open HairGuideSet in
/-- C6 counterexample: on an *empty* mesh the function returns early,
so a curve bound to the (out-of-range for the empty mesh) triangle 0
keeps `root.triIndex = 0` instead of being set to `-1`. -/
theorem c6_updatePinnedRoots_cex :
    ((updatePinnedRootsFromMesh
        ⟨[⟨⟨0, ⟨1,0,0⟩⟩, [⟨0,0,0⟩], [⟨0,0,0⟩], 0⟩], [false], -1⟩
        ⟨[], []⟩).curves.getD 0 {}).root.triIndex = 0 := by
  rfl

open HairGuideSet in
/-- C6 witness: triangle index 5 on a one-triangle mesh is unbound. -/
theorem c6_updatePinnedRoots_unbinds_witness :
    (updatePinnedRootsFromMesh
        ⟨[⟨⟨5, ⟨1,0,0⟩⟩, [⟨9,9,9⟩], [⟨8,8,8⟩], 0⟩], [false], -1⟩
        ⟨[⟨0,0,0⟩, ⟨1,0,0⟩, ⟨0,1,0⟩], [0,1,2]⟩).curves.get? 0 =
      some ⟨⟨-1, ⟨1,0,0⟩⟩, [⟨9,9,9⟩], [⟨8,8,8⟩], 0⟩ :=
  c6_updatePinnedRoots_unbinds
    ⟨[⟨⟨5, ⟨1,0,0⟩⟩, [⟨9,9,9⟩], [⟨8,8,8⟩], 0⟩], [false], -1⟩
    ⟨[⟨0,0,0⟩, ⟨1,0,0⟩, ⟨0,1,0⟩], [0,1,2]⟩
    (by decide) (by decide) 0 ⟨⟨5, ⟨1,0,0⟩⟩, [⟨9,9,9⟩], [⟨8,8,8⟩], 0⟩
    rfl (by decide) (by decide)

open HairGuideSet in
/-- C7: for a curve with a valid root binding (in-range triangle and
vertex indices, stored barycentrics summing to 1 — the invariant
`addCurveOnMesh` establishes) and nonempty `points`/`prevPoints`, after
`updatePinnedRootsFromMesh` both `points[0]` and `prevPoints[0]` equal
`bary.x*p0 + bary.y*p1 + bary.z*p2` for the bound triangle's current
vertex positions. -/
theorem c7_updatePinnedRoots_tracks (hg : HairGuideSet) (m : Mesh)
    (i : ℕ) (c : HairCurve) (hget : hg.curves.get? i = some c)
    (hpos : m.positions ≠ []) (hind : m.indices ≠ [])
    (h0 : 0 ≤ c.root.triIndex)
    (hlt : c.root.triIndex.toNat < m.triCount)
    (hi0 : m.idx (c.root.triIndex.toNat * 3) < m.positions.length)
    (hi1 : m.idx (c.root.triIndex.toNat * 3 + 1) < m.positions.length)
    (hi2 : m.idx (c.root.triIndex.toNat * 3 + 2) < m.positions.length)
    (hsum : c.root.bary.x + c.root.bary.y + c.root.bary.z = 1)
    (hpts : c.points ≠ []) (hprev : c.prevPoints ≠ []) :
    ∃ c', (updatePinnedRootsFromMesh hg m).curves.get? i = some c' ∧
      c'.points.get? 0 =
        some (c.root.bary.x • m.pos (m.idx (c.root.triIndex.toNat * 3)) +
          c.root.bary.y • m.pos (m.idx (c.root.triIndex.toNat * 3 + 1)) +
          c.root.bary.z • m.pos (m.idx (c.root.triIndex.toNat * 3 + 2))) ∧
      c'.prevPoints.get? 0 =
        some (c.root.bary.x • m.pos (m.idx (c.root.triIndex.toNat * 3)) +
          c.root.bary.y • m.pos (m.idx (c.root.triIndex.toNat * 3 + 1)) +
          c.root.bary.z • m.pos (m.idx (c.root.triIndex.toNat * 3 + 2))) := by
  rw [updatePinnedRootsFromMesh,
    if_neg (by rintro (h | h); exacts [hpos h, hind h])]
  show ∃ c', (hg.curves.map (updateRoot m)).get? i = some c' ∧ _
  rw [List.get?_map, hget, Option.map_some']
  refine ⟨updateRoot m c, rfl, ?_⟩
  set q := c.root.bary.x • m.pos (m.idx (c.root.triIndex.toNat * 3)) +
    c.root.bary.y • m.pos (m.idx (c.root.triIndex.toNat * 3 + 1)) +
    c.root.bary.z • m.pos (m.idx (c.root.triIndex.toNat * 3 + 2)) with hq
  have hbary : (if c.root.bary.x + c.root.bary.y + c.root.bary.z ≤ 1 / 100000000
      then (⟨1, 0, 0⟩ : Vec3)
      else vdiv c.root.bary (c.root.bary.x + c.root.bary.y + c.root.bary.z))
      = c.root.bary := by
    rw [hsum, if_neg (by norm_num)]
    cases hb : c.root.bary
    simp [vdiv]
  have hlt' : c.root.triIndex.toNat < m.indices.length / 3 := hlt
  have hres : updateRoot m c = { c with
      points := c.points.set 0 q
      prevPoints := c.prevPoints.set 0 q } := by
    simp only [updateRoot]
    rw [if_neg (by omega), if_neg (by omega),
      if_neg (by push_neg; exact ⟨hi0, hi1, hi2⟩)]
    rw [hbary]
    rw [if_neg hpts]
  rw [hres]
  constructor
  · show (c.points.set 0 q).get? 0 = some q
    exact List.get?_set_eq_of_lt _ (List.length_pos.2 hpts)
  · show (c.prevPoints.set 0 q).get? 0 = some q
    exact List.get?_set_eq_of_lt _ (List.length_pos.2 hprev)

open HairGuideSet in
/-- C7 witness: a bound curve on a one-triangle mesh has its root moved
to the barycentric combination of the current vertices. -/
theorem c7_updatePinnedRoots_tracks_witness :
    ∃ c', (updatePinnedRootsFromMesh
        ⟨[⟨⟨0, ⟨1/2, 1/4, 1/4⟩⟩, [⟨9,9,9⟩], [⟨8,8,8⟩], 0⟩], [false], -1⟩
        ⟨[⟨0,0,0⟩, ⟨2,0,0⟩, ⟨0,2,0⟩], [0,1,2]⟩).curves.get? 0 = some c' ∧
      c'.points.get? 0 = some ((1/2 : ℚ) • (⟨0,0,0⟩ : Vec3) +
        (1/4 : ℚ) • (⟨2,0,0⟩ : Vec3) + (1/4 : ℚ) • (⟨0,2,0⟩ : Vec3)) ∧
      c'.prevPoints.get? 0 = some ((1/2 : ℚ) • (⟨0,0,0⟩ : Vec3) +
        (1/4 : ℚ) • (⟨2,0,0⟩ : Vec3) + (1/4 : ℚ) • (⟨0,2,0⟩ : Vec3)) :=
  c7_updatePinnedRoots_tracks
    ⟨[⟨⟨0, ⟨1/2, 1/4, 1/4⟩⟩, [⟨9,9,9⟩], [⟨8,8,8⟩], 0⟩], [false], -1⟩
    ⟨[⟨0,0,0⟩, ⟨2,0,0⟩, ⟨0,2,0⟩], [0,1,2]⟩ 0
    ⟨⟨0, ⟨1/2, 1/4, 1/4⟩⟩, [⟨9,9,9⟩], [⟨8,8,8⟩], 0⟩ rfl
    (by decide) (by decide) (by decide) (by decide) (by decide) (by decide)
    (by decide) (by norm_num) (by decide) (by decide)

/-- C5: one full-strength `solveDistance` on a 2-point curve with the
root pinned (`w0 = 0`, `w1 = 1`) leaves the root in place and restores
`|p1 - p0|` to exactly `restLen` (squared comparison), provided the
length oracle is exact at this configuration and the segment is above
the `1e-8` guard — so the iterated stretch pass converges (in one
iteration, exactly). -/
theorem c5_solveDistance_restores_rest (sq : ℚ → ℚ) (p0 p1 : Vec3)
    (restLen L : ℚ)
    (hsq : sq (dot (p1 - p0) (p1 - p0)) = L)
    (hL : L * L = dot (p1 - p0) (p1 - p0))
    (hlb : 1 / 100000000 ≤ L) :
    (solveDistance sq p0 p1 restLen 0 1 1).1 = p0 ∧
    distSq (solveDistance sq p0 p1 restLen 0 1 1).2
      (solveDistance sq p0 p1 restLen 0 1 1).1 = restLen * restLen := by
  have hLpos : (0 : ℚ) < L := lt_of_lt_of_le (by norm_num) hlb
  have hLne : L ≠ 0 := ne_of_gt hLpos
  have hres : solveDistance sq p0 p1 restLen 0 1 1 =
      (p0 + (0 : ℚ) • (clampQ 1 0 1 • (((L - restLen) / (0 + 1)) •
          vdiv (p1 - p0) L)),
        p1 + (-(1 : ℚ)) • (clampQ 1 0 1 • (((L - restLen) / (0 + 1)) •
          vdiv (p1 - p0) L))) := by
    rw [solveDistance]
    rw [hsq]
    rw [if_neg (not_lt.2 hlb), if_neg (by norm_num)]
  rw [hres]
  constructor
  · cases p0; cases p1
    simp
  · cases hp0 : p0
    cases hp1 : p1
    subst hp0
    subst hp1
    simp only [distSq, dot, smul_def, add_def, sub_def, vdiv, clampQ] at hL ⊢
    norm_num
    field_simp
    ring_nf
    ring_nf at hL
    nlinarith [hL, sq_nonneg restLen]

/-- C5 witness: `p0 = origin`, `p1 = (3,4,0)`, rest length 1. -/
theorem c5_solveDistance_restores_rest_witness :
    (solveDistance (fun x => if x = 25 then 5 else 0)
        ⟨0,0,0⟩ ⟨3,4,0⟩ 1 0 1 1).1 = ⟨0,0,0⟩ ∧
    distSq (solveDistance (fun x => if x = 25 then 5 else 0)
        ⟨0,0,0⟩ ⟨3,4,0⟩ 1 0 1 1).2
      (solveDistance (fun x => if x = 25 then 5 else 0)
        ⟨0,0,0⟩ ⟨3,4,0⟩ 1 0 1 1).1 = 1 * 1 :=
  c5_solveDistance_restores_rest (fun x => if x = 25 then 5 else 0)
    ⟨0,0,0⟩ ⟨3,4,0⟩ 1 5 (by norm_num [dot]) (by norm_num [dot]) (by norm_num)

/-- C1 witness: a one-triangle mesh agrees with the brute-force scan. -/
theorem c1_nearestTriangle_agrees_bruteforce_witness :
    (Bvh.nearestTriangle (fun _ => 0)
        (Bvh.build ⟨[⟨0,0,0⟩, ⟨1,0,0⟩, ⟨0,1,0⟩], [0,1,2]⟩)
        ⟨[⟨0,0,0⟩, ⟨1,0,0⟩, ⟨0,1,0⟩], [0,1,2]⟩ ⟨0,0,0⟩ 1).isSome =
      (bruteForceNearest (fun _ => 0) ⟨[⟨0,0,0⟩, ⟨1,0,0⟩, ⟨0,1,0⟩], [0,1,2]⟩
        ⟨0,0,0⟩ 1).isSome :=
  (c1_nearestTriangle_agrees_bruteforce (fun _ => 0)
    ⟨[⟨0,0,0⟩, ⟨1,0,0⟩, ⟨0,1,0⟩], [0,1,2]⟩ ⟨0,0,0⟩ 1
    (by decide) (by decide) (by norm_num)).2.2.1

/-! ## The variational inequality behind the collision push-out (C2) -/

theorem cp_vertex_a (a b c : Vec3) :
    a = a + (0 : ℚ) • (b - a) + (0 : ℚ) • (c - a) := by
  cases a; cases b; cases c
  simp only [smul_def, add_def, sub_def, Vec3.mk.injEq]
  refine ⟨by ring, by ring, by ring⟩

theorem cp_vertex_b (a b c : Vec3) :
    b = a + (1 : ℚ) • (b - a) + (0 : ℚ) • (c - a) := by
  cases a; cases b; cases c
  simp only [smul_def, add_def, sub_def, Vec3.mk.injEq]
  refine ⟨by ring, by ring, by ring⟩

theorem cp_vertex_c (a b c : Vec3) :
    c = a + (0 : ℚ) • (b - a) + (1 : ℚ) • (c - a) := by
  cases a; cases b; cases c
  simp only [smul_def, add_def, sub_def, Vec3.mk.injEq]
  refine ⟨by ring, by ring, by ring⟩

theorem cp_edge_ab (a b c : Vec3) (x : ℚ) :
    a + x • (b - a) = a + x • (b - a) + (0 : ℚ) • (c - a) := by
  cases a; cases b; cases c
  simp only [smul_def, add_def, sub_def, Vec3.mk.injEq]
  refine ⟨by ring, by ring, by ring⟩

theorem cp_edge_ac (a b c : Vec3) (y : ℚ) :
    a + y • (c - a) = a + (0 : ℚ) • (b - a) + y • (c - a) := by
  cases a; cases b; cases c
  simp only [smul_def, add_def, sub_def, Vec3.mk.injEq]
  refine ⟨by ring, by ring, by ring⟩

theorem cp_edge_bc (a b c : Vec3) (w : ℚ) :
    b + w • (c - b) = a + (1 - w) • (b - a) + w • (c - a) := by
  cases a; cases b; cases c
  simp only [smul_def, add_def, sub_def, Vec3.mk.injEq]
  refine ⟨by ring, by ring, by ring⟩

/-- Scalarization of `dot (p - cp) (q - cp)` when both `cp` and `q` lie
in the triangle's plane frame `a + _ • (b-a) + _ • (c-a)`. -/
theorem dot_corner (p a b c q cp : Vec3) (x y u v : ℚ)
    (hq : q = a + u • (b - a) + v • (c - a))
    (hcp : cp = a + x • (b - a) + y • (c - a)) :
    dot (p - cp) (q - cp) =
      (u - x) * (dot (b - a) (p - a) - x * dot (b - a) (b - a) -
        y * dot (b - a) (c - a)) +
      (v - y) * (dot (c - a) (p - a) - x * dot (b - a) (c - a) -
        y * dot (c - a) (c - a)) := by
  subst hq
  subst hcp
  cases p; cases a; cases b; cases c
  simp only [dot, smul_def, add_def, sub_def]
  ring

/-- The closest point returned by `closestPointOnTriangle` on a
nondegenerate triangle satisfies the variational inequality of convex
projection: the vector to `p` makes an obtuse angle with every
direction into the triangle.  This is what makes the push-out in
`Physics::step` leave the whole triangle at distance `thickness`. -/
theorem closestPointOnTriangle_varineq (p a b c : Vec3)
    (hs : 0 < dot (b - a) (b - a) * dot (c - a) (c - a) -
      dot (b - a) (c - a) * dot (b - a) (c - a))
    (la lb lc : ℚ) (hla : 0 ≤ la) (hlb : 0 ≤ lb) (hlc : 0 ≤ lc)
    (hsum : la + lb + lc = 1) :
    dot (p - closestPointOnTriangle p a b c)
      (la • a + lb • b + lc • c - closestPointOnTriangle p a b c) ≤ 0 := by
  have hU0 : 0 ≤ dot (b - a) (b - a) := dot_self_nonneg _
  have hV0 : 0 ≤ dot (c - a) (c - a) := dot_self_nonneg _
  have hU' : 0 < dot (b - a) (b - a) := by
    nlinarith [sq_nonneg (dot (b - a) (c - a))]
  have hV' : 0 < dot (c - a) (c - a) := by
    nlinarith [sq_nonneg (dot (b - a) (c - a))]
  have hlbc : lb + lc ≤ 1 := by linarith
  have hq : la • a + lb • b + lc • c = a + lb • (b - a) + lc • (c - a) := by
    have h : la = 1 - lb - lc := by linarith
    subst h
    cases a; cases b; cases c
    simp only [smul_def, add_def, sub_def, Vec3.mk.injEq]
    refine ⟨by ring, by ring, by ring⟩
  simp only [closestPointOnTriangle, dot3_eq p a b c, dot4_eq p a b c,
    dot5_eq p a b c, dot6_eq p a b c]
  split_ifs with h1 h2 h3 h4 h5 h6
  · -- region A
    rw [dot_corner p a b c _ _ 0 0 lb lc hq (cp_vertex_a a b c)]
    obtain ⟨ha1, ha2⟩ := h1
    have t1 : lb * dot (b - a) (p - a) ≤ 0 := by nlinarith [hlb, ha1]
    have t2 : lc * dot (c - a) (p - a) ≤ 0 := by nlinarith [hlc, ha2]
    nlinarith [t1, t2]
  · -- region B
    rw [dot_corner p a b c _ _ 1 0 lb lc hq (cp_vertex_b a b c)]
    set U := dot (b - a) (b - a)
    set D := dot (b - a) (c - a)
    set al := dot (b - a) (p - a)
    set be := dot (c - a) (p - a)
    obtain ⟨h2a, h2b⟩ := h2
    have t1 : lc * (be - D) ≤ lc * (al - U) := mul_le_mul_of_nonneg_left h2b hlc
    have t2 : (lb + lc) * (al - U) ≤ 1 * (al - U) :=
      mul_le_mul_of_nonneg_right hlbc h2a
    nlinarith [t1, t2]
  · -- edge AB
    have hden : dot (b - a) (p - a) -
        (dot (b - a) (p - a) - dot (b - a) (b - a)) = dot (b - a) (b - a) := by
      ring
    rw [hden]
    rw [dot_corner p a b c _ _
      (dot (b - a) (p - a) / dot (b - a) (b - a)) 0 lb lc hq
      (cp_edge_ab a b c (dot (b - a) (p - a) / dot (b - a) (b - a)))]
    set U := dot (b - a) (b - a)
    set V := dot (c - a) (c - a)
    set D := dot (b - a) (c - a)
    set al := dot (b - a) (p - a)
    set be := dot (c - a) (p - a)
    obtain ⟨hvc, hd1, hd3⟩ := h3
    have hg1 : al - al / U * U - 0 * D = 0 := by
      rw [div_mul_cancel₀ _ (ne_of_gt hU')]
      ring
    have hg2 : be - al / U * D - 0 * V = (U * be - D * al) / U := by
      field_simp
      ring
    rw [hg1, hg2]
    have hvc' : U * be - D * al ≤ 0 := by linarith [hvc]
    have hdiv : (U * be - D * al) / U ≤ 0 :=
      div_nonpos_of_nonpos_of_nonneg hvc' hU0
    nlinarith [mul_nonneg hlc (neg_nonneg.2 hdiv)]
  · -- region C
    rw [dot_corner p a b c _ _ 0 1 lb lc hq (cp_vertex_c a b c)]
    set V := dot (c - a) (c - a)
    set D := dot (b - a) (c - a)
    set al := dot (b - a) (p - a)
    set be := dot (c - a) (p - a)
    obtain ⟨h4a, h4b⟩ := h4
    have t1 : lb * (al - D) ≤ lb * (be - V) := mul_le_mul_of_nonneg_left h4b hlb
    have t2 : (lb + lc) * (be - V) ≤ 1 * (be - V) :=
      mul_le_mul_of_nonneg_right hlbc h4a
    nlinarith [t1, t2]
  · -- edge AC
    have hden : dot (c - a) (p - a) -
        (dot (c - a) (p - a) - dot (c - a) (c - a)) = dot (c - a) (c - a) := by
      ring
    rw [hden]
    rw [dot_corner p a b c _ _ 0
      (dot (c - a) (p - a) / dot (c - a) (c - a)) lb lc hq
      (cp_edge_ac a b c (dot (c - a) (p - a) / dot (c - a) (c - a)))]
    set U := dot (b - a) (b - a)
    set V := dot (c - a) (c - a)
    set D := dot (b - a) (c - a)
    set al := dot (b - a) (p - a)
    set be := dot (c - a) (p - a)
    obtain ⟨hvb, hd2, hd6⟩ := h5
    have hg2 : be - 0 * D - be / V * V = 0 := by
      rw [div_mul_cancel₀ _ (ne_of_gt hV')]
      ring
    have hg1 : al - 0 * U - be / V * D = (V * al - D * be) / V := by
      field_simp
      ring
    rw [hg1, hg2]
    have hvb' : V * al - D * be ≤ 0 := by linarith [hvb]
    have hdiv : (V * al - D * be) / V ≤ 0 :=
      div_nonpos_of_nonpos_of_nonneg hvb' hV0
    nlinarith [mul_nonneg hlb (neg_nonneg.2 hdiv)]
  · -- edge BC
    obtain ⟨hva, he1, he2⟩ := h6
    have hT : 0 < dot (c - a) (p - a) - dot (b - a) (c - a) -
        (dot (b - a) (p - a) - dot (b - a) (b - a)) +
        (dot (b - a) (p - a) - dot (b - a) (c - a) -
          (dot (c - a) (p - a) - dot (c - a) (c - a))) := by
      by_contra hc
      push_neg at hc
      have hc1 : 0 ≤ 2 * dot (b - a) (c - a) -
          (dot (b - a) (b - a) + dot (c - a) (c - a)) := by linarith
      have hc2 : 0 ≤ 2 * dot (b - a) (c - a) +
          (dot (b - a) (b - a) + dot (c - a) (c - a)) := by linarith
      nlinarith [mul_nonneg hc1 hc2,
        sq_nonneg (dot (b - a) (b - a) - dot (c - a) (c - a))]
    rw [dot_corner p a b c _ _
      (1 - (dot (c - a) (p - a) - dot (b - a) (c - a) -
          (dot (b - a) (p - a) - dot (b - a) (b - a))) /
        (dot (c - a) (p - a) - dot (b - a) (c - a) -
          (dot (b - a) (p - a) - dot (b - a) (b - a)) +
          (dot (b - a) (p - a) - dot (b - a) (c - a) -
            (dot (c - a) (p - a) - dot (c - a) (c - a)))))
      ((dot (c - a) (p - a) - dot (b - a) (c - a) -
          (dot (b - a) (p - a) - dot (b - a) (b - a))) /
        (dot (c - a) (p - a) - dot (b - a) (c - a) -
          (dot (b - a) (p - a) - dot (b - a) (b - a)) +
          (dot (b - a) (p - a) - dot (b - a) (c - a) -
            (dot (c - a) (p - a) - dot (c - a) (c - a)))))
      lb lc hq
      (cp_edge_bc a b c
        ((dot (c - a) (p - a) - dot (b - a) (c - a) -
          (dot (b - a) (p - a) - dot (b - a) (b - a))) /
        (dot (c - a) (p - a) - dot (b - a) (c - a) -
          (dot (b - a) (p - a) - dot (b - a) (b - a)) +
          (dot (b - a) (p - a) - dot (b - a) (c - a) -
            (dot (c - a) (p - a) - dot (c - a) (c - a))))))]
    set U := dot (b - a) (b - a)
    set V := dot (c - a) (c - a)
    set D := dot (b - a) (c - a)
    set al := dot (b - a) (p - a)
    set be := dot (c - a) (p - a)
    have hTne : be - D - (al - U) + (al - D - (be - V)) ≠ 0 := ne_of_gt hT
    have hg1 : al - (1 - (be - D - (al - U)) /
          (be - D - (al - U) + (al - D - (be - V)))) * U -
        ((be - D - (al - U)) / (be - D - (al - U) + (al - D - (be - V)))) * D =
        (-((al - U) * (be - V) - (al - D) * (be - D))) /
          (be - D - (al - U) + (al - D - (be - V))) := by
      field_simp
      ring
    have hg2 : be - (1 - (be - D - (al - U)) /
          (be - D - (al - U) + (al - D - (be - V)))) * D -
        ((be - D - (al - U)) / (be - D - (al - U) + (al - D - (be - V)))) * V =
        (-((al - U) * (be - V) - (al - D) * (be - D))) /
          (be - D - (al - U) + (al - D - (be - V))) := by
      field_simp
      ring
    rw [hg1, hg2]
    have hX : 0 ≤ (-((al - U) * (be - V) - (al - D) * (be - D))) /
        (be - D - (al - U) + (al - D - (be - V))) :=
      div_nonneg (by linarith [hva]) hT.le
    nlinarith [mul_nonneg (show (0:ℚ) ≤ 1 - (lb + lc) by linarith) hX]
  · -- interior
    have hSne : (dot (b - a) (p - a) - dot (b - a) (b - a)) *
          (dot (c - a) (p - a) - dot (c - a) (c - a)) -
        (dot (b - a) (p - a) - dot (b - a) (c - a)) *
          (dot (c - a) (p - a) - dot (b - a) (c - a)) +
        ((dot (b - a) (p - a) - dot (b - a) (c - a)) * dot (c - a) (p - a) -
          dot (b - a) (p - a) *
            (dot (c - a) (p - a) - dot (c - a) (c - a))) +
        (dot (b - a) (p - a) *
            (dot (c - a) (p - a) - dot (b - a) (c - a)) -
          (dot (b - a) (p - a) - dot (b - a) (b - a)) *
            dot (c - a) (p - a)) ≠ 0 := by
      have heq : (dot (b - a) (p - a) - dot (b - a) (b - a)) *
          (dot (c - a) (p - a) - dot (c - a) (c - a)) -
        (dot (b - a) (p - a) - dot (b - a) (c - a)) *
          (dot (c - a) (p - a) - dot (b - a) (c - a)) +
        ((dot (b - a) (p - a) - dot (b - a) (c - a)) * dot (c - a) (p - a) -
          dot (b - a) (p - a) *
            (dot (c - a) (p - a) - dot (c - a) (c - a))) +
        (dot (b - a) (p - a) *
            (dot (c - a) (p - a) - dot (b - a) (c - a)) -
          (dot (b - a) (p - a) - dot (b - a) (b - a)) *
            dot (c - a) (p - a)) =
          dot (b - a) (b - a) * dot (c - a) (c - a) -
            dot (b - a) (c - a) * dot (b - a) (c - a) := by
        ring
      rw [heq]
      exact ne_of_gt hs
    set U := dot (b - a) (b - a)
    set V := dot (c - a) (c - a)
    set D := dot (b - a) (c - a)
    set al := dot (b - a) (p - a)
    set be := dot (c - a) (p - a)
    rw [dot_corner p a b c _ _
      (((al - D) * be - al * (be - V)) *
        (1 / ((al - U) * (be - V) - (al - D) * (be - D) +
          ((al - D) * be - al * (be - V)) + (al * (be - D) - (al - U) * be))))
      ((al * (be - D) - (al - U) * be) *
        (1 / ((al - U) * (be - V) - (al - D) * (be - D) +
          ((al - D) * be - al * (be - V)) + (al * (be - D) - (al - U) * be))))
      lb lc hq rfl]
    have hSne' : (al - U) * (be - V) - (al - D) * (be - D) +
        ((al - D) * be - al * (be - V)) + (al * (be - D) - (al - U) * be) ≠ 0 := by
      intro h0
      exact hSne (by linarith [h0])
    have hg1 : al - ((al - D) * be - al * (be - V)) *
          (1 / ((al - U) * (be - V) - (al - D) * (be - D) +
            ((al - D) * be - al * (be - V)) +
            (al * (be - D) - (al - U) * be))) * U -
        (al * (be - D) - (al - U) * be) *
          (1 / ((al - U) * (be - V) - (al - D) * (be - D) +
            ((al - D) * be - al * (be - V)) +
            (al * (be - D) - (al - U) * be))) * D = 0 := by
      field_simp
      ring
    have hg2 : be - ((al - D) * be - al * (be - V)) *
          (1 / ((al - U) * (be - V) - (al - D) * (be - D) +
            ((al - D) * be - al * (be - V)) +
            (al * (be - D) - (al - U) * be))) * D -
        (al * (be - D) - (al - U) * be) *
          (1 / ((al - U) * (be - V) - (al - D) * (be - D) +
            ((al - D) * be - al * (be - V)) +
            (al * (be - D) - (al - U) * be))) * V = 0 := by
      field_simp
      ring
    rw [hg1, hg2]
    simp

/-- Expansion of the squared distance from the pushed point to an
arbitrary point, in terms of the pre-push geometry. -/
theorem pushout_expand (p cp q : Vec3) (t L : ℚ) :
    distSq (p + t • ((1 / L) • (p - cp))) q =
      (1 + t / L) * (1 + t / L) * dot (p - cp) (p - cp)
        - 2 * (1 + t / L) * dot (p - cp) (q - cp) + dot (q - cp) (q - cp) := by
  cases p; cases cp; cases q
  simp only [distSq, dot, smul_def, add_def, sub_def]
  ring

/-- C2 (amended): for a point that the parity test classifies as
*outside*, whose nearest-triangle query within `2*thickness` returned
`(tri, cp, n)`, with `1e-8 ≤ dist < thickness` (`dist` the
oracle-exact length of `p - cp`) and `tri` nondegenerate, the
mesh-collision body of `Physics::step` pushes the point out by exactly
`(thickness - dist)` along the outward direction `normalize (p - cp)`,
after which its distance to `cp` is exactly `thickness` and its
distance to *every* point of that same triangle is `≥ thickness`
(squared comparisons).  For an *inside*-classified point the push-out
can land the point back on the triangle — see
`c2_collision_pushout_cex`, which refutes the unamended claim. -/
theorem c2_collision_pushout (sq : ℚ → ℚ) (m : Mesh) (bvh : Bvh)
    (thickness friction : ℚ) (p prev : Vec3)
    (tri : ℕ) (cp n : Vec3)
    (hres : Bvh.nearestTriangle sq bvh m p (thickness * 2) = some (tri, cp, n))
    (hcp : cp = triClosest m p tri)
    (dist : ℚ)
    (hsq : sq (dot (p - cp) (p - cp)) = dist)
    (hdd : dist * dist = dot (p - cp) (p - cp))
    (hlo : 1 / 100000000 ≤ dist)
    (hhi : dist < thickness)
    (hout : isInsideMeshRayParity m bvh p = false)
    (hnd : 0 < dot (m.vertB tri - m.vertA tri) (m.vertB tri - m.vertA tri) *
        dot (m.vertC tri - m.vertA tri) (m.vertC tri - m.vertA tri) -
      dot (m.vertB tri - m.vertA tri) (m.vertC tri - m.vertA tri) *
        dot (m.vertB tri - m.vertA tri) (m.vertC tri - m.vertA tri)) :
    (collidePoint sq m bvh thickness friction p prev).1 =
      p + (thickness - dist) • normalize sq (p - cp) ∧
    distSq (collidePoint sq m bvh thickness friction p prev).1 cp =
      thickness * thickness ∧
    (∀ la lb lc : ℚ, 0 ≤ la → 0 ≤ lb → 0 ≤ lc → la + lb + lc = 1 →
      thickness * thickness ≤
        distSq (collidePoint sq m bvh thickness friction p prev).1
          (la • m.vertA tri + lb • m.vertB tri + lc • m.vertC tri)) := by
  have hdpos : (0 : ℚ) < dist := lt_of_lt_of_le (by norm_num) hlo
  have hdne : dist ≠ 0 := ne_of_gt hdpos
  have hp1 : (collidePoint sq m bvh thickness friction p prev).1 =
      p + (thickness - dist) • ((1 / dist) • (p - cp)) := by
    simp only [collidePoint, hres]
    rw [hsq, if_pos hhi, hout, if_pos hlo, if_neg Bool.false_ne_true]
    simp only [normalize, hsq]
  refine ⟨?_, ?_, ?_⟩
  · rw [hp1, normalize, hsq]
  · rw [hp1, pushout_expand p cp cp (thickness - dist) dist]
    have h0 : dot (p - cp) (cp - cp) = 0 := by
      cases p; cases cp; simp only [sub_def, dot]; ring
    have h1 : dot (cp - cp) (cp - cp) = 0 := by
      cases cp; simp only [sub_def, dot]; ring
    rw [h0, h1, ← hdd]
    field_simp
  · intro la lb lc hla hlb hlc hsuml
    rw [hp1, pushout_expand p cp
      (la • m.vertA tri + lb • m.vertB tri + lc • m.vertC tri)
      (thickness - dist) dist]
    have hvar : dot (p - cp)
        (la • m.vertA tri + lb • m.vertB tri + lc • m.vertC tri - cp) ≤ 0 := by
      rw [hcp]
      exact closestPointOnTriangle_varineq p (m.vertA tri) (m.vertB tri)
        (m.vertC tri) hnd la lb lc hla hlb hlc hsuml
    have hS : (0 : ℚ) ≤ 1 + (thickness - dist) / dist := by
      have : (0 : ℚ) ≤ (thickness - dist) / dist :=
        div_nonneg (by linarith) hdpos.le
      linarith
    have hsq2 : (1 + (thickness - dist) / dist) *
        (1 + (thickness - dist) / dist) * dot (p - cp) (p - cp) =
        thickness * thickness := by
      rw [← hdd]
      field_simp
    rw [hsq2]
    nlinarith [mul_nonneg hS (neg_nonneg.2 hvar),
      dot_self_nonneg (la • m.vertA tri + lb • m.vertB tri +
        lc • m.vertC tri - cp)]

/-- C2 counterexample (refuting the unamended claim): on the
tetrahedron `A=(0,0,0), B=(4,0,0), C=(0,4,0), D=(0,0,4)` (face `ABC`
is triangle 0; the BVH is a single leaf over all four faces, so
`nearestTriangle` scans every triangle and `raycast` delivers all of
them whenever the root box passes the slab test — as it does for this
query's parity ray), the
point `p = (1,1,1/2)` has distance `1/2 < thickness = 1` to its
nearest triangle 0, the parity test classifies it *inside*, and the
collision body pushes it to `(1,1,0)` — a point ON triangle 0, at
distance `0`, not `≥ thickness - ε`: pushing an inside point by
`(thickness - dist)` along `-normalize(p - cp)` lands at distance
`|2·dist - thickness|` from `cp`, which vanishes at
`dist = thickness/2`. -/
theorem c2_collision_pushout_cex :
    Bvh.nearestTriangle
        (fun q => if q = 1/4 then 1/2 else if q = 256 then 16 else
          if q = 1 then 1 else 0)
        ⟨[⟨⟨0,0,0⟩, ⟨4,4,4⟩, -1, -1, 0, 4⟩], [0,1,2,3]⟩
        ⟨[⟨0,0,0⟩, ⟨4,0,0⟩, ⟨0,4,0⟩, ⟨0,0,4⟩], [0,1,2, 0,1,3, 0,2,3, 1,2,3]⟩
        ⟨1, 1, 1/2⟩ (1 * 2) = some (0, ⟨1,1,0⟩, ⟨0,0,1⟩) ∧
    triDistSq ⟨[⟨0,0,0⟩, ⟨4,0,0⟩, ⟨0,4,0⟩, ⟨0,0,4⟩], [0,1,2, 0,1,3, 0,2,3, 1,2,3]⟩
        ⟨1, 1, 1/2⟩ 0 = 1/4 ∧
    isInsideMeshRayParity
        ⟨[⟨0,0,0⟩, ⟨4,0,0⟩, ⟨0,4,0⟩, ⟨0,0,4⟩], [0,1,2, 0,1,3, 0,2,3, 1,2,3]⟩
        ⟨[⟨⟨0,0,0⟩, ⟨4,4,4⟩, -1, -1, 0, 4⟩], [0,1,2,3]⟩ ⟨1, 1, 1/2⟩ = true ∧
    (collidePoint
        (fun q => if q = 1/4 then 1/2 else if q = 256 then 16 else
          if q = 1 then 1 else 0)
        ⟨[⟨0,0,0⟩, ⟨4,0,0⟩, ⟨0,4,0⟩, ⟨0,0,4⟩], [0,1,2, 0,1,3, 0,2,3, 1,2,3]⟩
        ⟨[⟨⟨0,0,0⟩, ⟨4,4,4⟩, -1, -1, 0, 4⟩], [0,1,2,3]⟩
        1 1 ⟨1, 1, 1/2⟩ ⟨1, 1, 1/2⟩).1 = ⟨1, 1, 0⟩ ∧
    triDistSq ⟨[⟨0,0,0⟩, ⟨4,0,0⟩, ⟨0,4,0⟩, ⟨0,0,4⟩], [0,1,2, 0,1,3, 0,2,3, 1,2,3]⟩
        ⟨1, 1, 0⟩ 0 = 0 := by
  refine ⟨?_, ?_, ?_, ?_, ?_⟩
  · norm_num [Bvh.nearestTriangle, nearestGo, scanRange, scanTri, aabbDistSq,
      closestPointOnTriangle, normalize, cross, dot, Mesh.vertA, Mesh.vertB,
      Mesh.vertC, Mesh.pos, Mesh.idx, List.getD_cons_zero, List.getD_cons_succ,
      List.foldl, List.take, List.drop, List.cons_ne_nil]
  · norm_num [triDistSq, triClosest, closestPointOnTriangle, distSq, dot,
      Mesh.vertA, Mesh.vertB, Mesh.vertC, Mesh.pos, Mesh.idx,
      List.getD_cons_zero, List.getD_cons_succ]
  · norm_num [isInsideMeshRayParity, Bvh.raycast, raycastGo, rayAabb,
      xinv, xmul, xlt, xle, xmin, xmax,
      rayTriMT, cross, dot, Mesh.vertA, Mesh.vertB, Mesh.vertC, Mesh.pos,
      Mesh.idx, List.getD_cons_zero, List.getD_cons_succ, List.take,
      List.drop, List.countP, List.countP.go, min_def, max_def,
      List.cons_ne_nil, abs_eq_max_neg]
  · norm_num [collidePoint, Bvh.nearestTriangle, nearestGo, scanRange,
      scanTri, aabbDistSq, closestPointOnTriangle, normalize, cross, dot,
      Mesh.vertA, Mesh.vertB, Mesh.vertC, Mesh.pos, Mesh.idx,
      List.getD_cons_zero, List.getD_cons_succ, List.foldl, List.take,
      List.drop, isInsideMeshRayParity, Bvh.raycast, raycastGo, rayAabb,
      xinv, xmul, xlt, xle, xmin, xmax,
      rayTriMT, List.countP, List.countP.go, min_def, max_def, clampQ, vdiv,
      distSq, List.cons_ne_nil, abs_eq_max_neg]
  · norm_num [triDistSq, triClosest, closestPointOnTriangle, distSq, dot,
      Mesh.vertA, Mesh.vertB, Mesh.vertC, Mesh.pos, Mesh.idx,
      List.getD_cons_zero, List.getD_cons_succ]

/-- C2 witness: the *outside* point `p = (1,1,-1/2)` below the same
tetrahedron is pushed to distance exactly `thickness` from the whole
of triangle 0 (instantiated at the vertex `A`). -/
theorem c2_collision_pushout_witness :
    (1 : ℚ) * 1 ≤
      distSq ((collidePoint
          (fun q => if q = 1/4 then 1/2 else if q = 256 then 16 else
            if q = 1 then 1 else 0)
          ⟨[⟨0,0,0⟩, ⟨4,0,0⟩, ⟨0,4,0⟩, ⟨0,0,4⟩], [0,1,2, 0,1,3, 0,2,3, 1,2,3]⟩
          ⟨[⟨⟨0,0,0⟩, ⟨4,4,4⟩, -1, -1, 0, 4⟩], [0,1,2,3]⟩
          1 1 ⟨1, 1, -1/2⟩ ⟨1, 1, -1/2⟩).1)
        ((1 : ℚ) • Mesh.vertA
            ⟨[⟨0,0,0⟩, ⟨4,0,0⟩, ⟨0,4,0⟩, ⟨0,0,4⟩], [0,1,2, 0,1,3, 0,2,3, 1,2,3]⟩ 0 +
          (0 : ℚ) • Mesh.vertB
            ⟨[⟨0,0,0⟩, ⟨4,0,0⟩, ⟨0,4,0⟩, ⟨0,0,4⟩], [0,1,2, 0,1,3, 0,2,3, 1,2,3]⟩ 0 +
          (0 : ℚ) • Mesh.vertC
            ⟨[⟨0,0,0⟩, ⟨4,0,0⟩, ⟨0,4,0⟩, ⟨0,0,4⟩], [0,1,2, 0,1,3, 0,2,3, 1,2,3]⟩ 0) :=
  (c2_collision_pushout
    (fun q => if q = 1/4 then 1/2 else if q = 256 then 16 else
      if q = 1 then 1 else 0)
    ⟨[⟨0,0,0⟩, ⟨4,0,0⟩, ⟨0,4,0⟩, ⟨0,0,4⟩], [0,1,2, 0,1,3, 0,2,3, 1,2,3]⟩
    ⟨[⟨⟨0,0,0⟩, ⟨4,4,4⟩, -1, -1, 0, 4⟩], [0,1,2,3]⟩
    1 1 ⟨1, 1, -1/2⟩ ⟨1, 1, -1/2⟩ 0 ⟨1,1,0⟩ ⟨0,0,1⟩
    (by norm_num [Bvh.nearestTriangle, nearestGo, scanRange, scanTri,
      aabbDistSq, closestPointOnTriangle, normalize, cross, dot, Mesh.vertA,
      Mesh.vertB, Mesh.vertC, Mesh.pos, Mesh.idx, List.getD_cons_zero,
      List.getD_cons_succ, List.foldl, List.take, List.drop,
      List.cons_ne_nil])
    (by norm_num [triClosest, closestPointOnTriangle, dot, Mesh.vertA,
      Mesh.vertB, Mesh.vertC, Mesh.pos, Mesh.idx, List.getD_cons_zero,
      List.getD_cons_succ])
    (1/2)
    (by norm_num [dot])
    (by norm_num [dot])
    (by norm_num)
    (by norm_num)
    (by norm_num [isInsideMeshRayParity, Bvh.raycast, raycastGo, rayAabb,
      xinv, xmul, xlt, xle, xmin, xmax,
      rayTriMT, cross, dot, Mesh.vertA, Mesh.vertB, Mesh.vertC, Mesh.pos,
      Mesh.idx, List.getD_cons_zero, List.getD_cons_succ, List.take,
      List.drop, List.countP, List.countP.go, min_def, max_def,
      List.cons_ne_nil, abs_eq_max_neg])
    (by norm_num [dot, Mesh.vertA, Mesh.vertB, Mesh.vertC, Mesh.pos, Mesh.idx,
      List.getD_cons_zero, List.getD_cons_succ])).2.2
    1 0 0 (by norm_num) (by norm_num) (by norm_num) (by norm_num)

end HairTool
